import Mathlib

/-!
Shallow embedding of the control-flow lowering engine in `ir/irfunction.cpp`
(LDC's cleanup-scope / goto / break / continue machinery).

Basic blocks and alloca slots are identified by natural numbers.  A basic
block is modelled by the list of selector stores sitting immediately before
its terminator (in insertion order) together with its optional terminator.
The IR builder collaborator (block creation, terminator replacement,
switch-case extension, store insertion, use replacement) is modelled as
explicit state-passing over `IRState`.
-/

namespace IrFunction

abbrev BlockId := Nat
abbrev SlotId := Nat

/-- A basic-block terminator: an unconditional branch, or a switch keyed on
the value loaded from a selector slot, with a default target and a list of
(case value, case target) pairs in insertion order. -/
inductive Terminator where
  | br (target : BlockId)
  | switch (selector : SlotId) (defaultTarget : BlockId) (cases : List (Nat × BlockId))
deriving DecidableEq, Repr

/-- The modelled contents of one basic block: the constant-integer stores
sitting immediately before the terminator (each `(slot, value)`), and the
terminator itself (`none` while the block is still open). -/
structure BB where
  stores : List (SlotId × Nat)
  term : Option Terminator
deriving DecidableEq, Repr

/-- The IR builder collaborator's state: block contents, the set of blocks
currently attached to the function, fresh-id counters for blocks and alloca
slots, and the current insertion block (`irs->scopebb()`). -/
structure IRState where
  blocks : BlockId → BB
  live : List BlockId
  nextBlock : BlockId
  nextSlot : SlotId
  scopebb : BlockId

/-- Append a terminator to a block / replace the block's terminator
(`llvm::BranchInst::Create(t, bb)`, `eraseFromParent` + recreate). -/
def setTerm (irs : IRState) (b : BlockId) (t : Terminator) : IRState :=
  { irs with blocks := fun b' => if b' = b then { irs.blocks b with term := some t } else irs.blocks b' }

/-- Insert a store of constant `v` into slot `slot` immediately before the
terminator of block `b` (`new llvm::StoreInst(..., b->getTerminator())`). -/
def insertStoreBeforeTerm (irs : IRState) (b : BlockId) (slot : SlotId) (v : Nat) : IRState :=
  { irs with blocks := fun b' => if b' = b then
      { irs.blocks b with stores := (irs.blocks b).stores ++ [(slot, v)] } else irs.blocks b' }

/-- Append a case to the switch terminating block `b`
(`llvm::cast<llvm::SwitchInst>(...)->addCase(v, target)`).  If the block is
not terminated by a switch the cast would fail in the source; we model that
unreachable situation as a no-op. -/
def addSwitchCase (irs : IRState) (b : BlockId) (v : Nat) (target : BlockId) : IRState :=
  { irs with blocks := fun b' => if b' = b then
      { irs.blocks b with term :=
          match (irs.blocks b).term with
          | some (Terminator.switch sel d cs) => some (Terminator.switch sel d (cs ++ [(v, target)]))
          | t => t }
    else irs.blocks b' }

/-- Rewrite one terminator, replacing every occurrence of block `o` as a
branch / switch target by `n`. -/
def replTerm (o n : BlockId) : Terminator → Terminator
  | Terminator.br t => Terminator.br (if t = o then n else t)
  | Terminator.switch sel d cs =>
      Terminator.switch sel (if d = o then n else d)
        (cs.map (fun c => (c.1, if c.2 = o then n else c.2)))

/-- `o->replaceAllUsesWith(n)`: redirect every use of block `o` (as a branch
or switch target anywhere in the function) to block `n`. -/
def replaceAllUsesWith (irs : IRState) (o n : BlockId) : IRState :=
  { irs with blocks := fun b => { irs.blocks b with term := ((irs.blocks b).term).map (replTerm o n) } }

/-- `llvm::BasicBlock::Create(...)`: attach a fresh, empty, unterminated
block to the current function and return its id. -/
def createBlock (irs : IRState) : IRState × BlockId :=
  ({ irs with
      blocks := fun b' => if b' = irs.nextBlock then { stores := [], term := none } else irs.blocks b',
      live := irs.nextBlock :: irs.live,
      nextBlock := irs.nextBlock + 1 },
   irs.nextBlock)

/-- `b->eraseFromParent()`: detach block `b` from the function. -/
def eraseBlock (irs : IRState) (b : BlockId) : IRState :=
  { irs with live := irs.live.erase b }

/-- Modelled from the spec (the record layouts live in `ir/irfunction.h`,
which is not part of the sources here): one distinct continuation of a
cleanup scope — its target block and the ordered list of source blocks
currently routed to it through this scope. -/
structure CleanupExitTarget where
  branchTarget : BlockId
  sourceBlocks : List BlockId
deriving DecidableEq, Repr

/-- Modelled from the spec: a `goto` whose label has not been seen yet —
source location, the block the jump was emitted from, the speculatively
created placeholder block, and the awaited label identifier. -/
structure GotoJump where
  sourceLoc : Nat
  sourceBlock : BlockId
  tentativeTarget : BlockId
  targetLabel : Nat
deriving DecidableEq, Repr

/-- Modelled from the spec: one cleanup region — entry/exit blocks, the
ordered list of exit targets (insertion order defines the selector index),
the lazily created selector slot, and the unresolved gotos whose jump site
is lexically inside this scope. -/
structure CleanupScope where
  beginBlock : BlockId
  endBlock : BlockId
  exitTargets : List CleanupExitTarget
  branchSelector : Option SlotId
  unresolvedGotos : List GotoJump
deriving DecidableEq, Repr

instance : Inhabited CleanupExitTarget := ⟨⟨0, []⟩⟩

instance : Inhabited CleanupScope := ⟨⟨0, 0, [], none, []⟩⟩

/-- Modelled from the spec: a registered loop/switch/label target — target
block, the cleanup cursor captured at registration time, and the owning
statement's identity (0 for label targets). -/
structure JumpTarget where
  targetBlock : BlockId
  cleanupScope : Nat
  targetStatement : Nat
deriving DecidableEq, Repr

/-- Store `0` into `sel` immediately before the terminator of every block in
the list (the backfill loop run when the selector slot is first created). -/
def backfillStores (irs : IRState) (sel : SlotId) : List BlockId → IRState
  | [] => irs
  | b :: bs => backfillStores (insertStoreBeforeTerm irs b sel 0) sel bs

/-- Index of the first exit target whose destination is `bb` (the linear
search over `scope.exitTargets`). -/
def findTargetIdx : List CleanupExitTarget → BlockId → Option Nat
  | [], _ => none
  | t :: ts, bb => if t.branchTarget = bb then some 0 else (findTargetIdx ts bb).map (fun i => i + 1)

/-- Append a source block to the `i`-th exit target's source-block list. -/
def addSourceAt : List CleanupExitTarget → Nat → BlockId → List CleanupExitTarget
  | [], _, _ => []
  | t :: ts, 0, b => { t with sourceBlocks := t.sourceBlocks ++ [b] } :: ts
  | t :: ts, n + 1, b => t :: addSourceAt ts n b

/-- The selector-requiring path of `executeCleanup` (everything after the
first early return): ensure the selector slot exists — allocating it,
backfilling stores of `0` into the sole existing target's source blocks, and
converting the exit block's branch into a switch if it does not — then either
store the existing index for a known destination or add a fresh switch case,
store the fresh index, and record the new exit target. -/
def executeCleanupSelector (irs : IRState) (scope : CleanupScope)
    (sourceBlock cw : BlockId) : IRState × CleanupScope :=
  let ensured : IRState × CleanupScope × SlotId :=
    match scope.branchSelector with
    | some sel => (irs, scope, sel)
    | none =>
        let sel := irs.nextSlot
        let irsA := { irs with nextSlot := irs.nextSlot + 1 }
        let first := scope.exitTargets.headD default
        let irsB := backfillStores irsA sel first.sourceBlocks
        let irsC := setTerm irsB scope.endBlock (Terminator.switch sel first.branchTarget [])
        (irsC, { scope with branchSelector := some sel }, sel)
  let irs1 := ensured.1
  let scope1 := ensured.2.1
  let sel := ensured.2.2
  match findTargetIdx scope1.exitTargets cw with
  | some i =>
      (insertStoreBeforeTerm irs1 sourceBlock sel i,
       { scope1 with exitTargets := addSourceAt scope1.exitTargets i sourceBlock })
  | none =>
      let n := scope1.exitTargets.length
      let irs2 := addSwitchCase irs1 scope1.endBlock n cw
      let irs3 := insertStoreBeforeTerm irs2 sourceBlock sel n
      (irs3, { scope1 with exitTargets := scope1.exitTargets ++ [⟨cw, [sourceBlock]⟩] })

/-- The Cleanup Multiplexer: record that control starting from
`sourceBlock` must, after the cleanup has run, continue at `cw`, mutating
the IR accordingly (translation of `executeCleanup`). -/
def executeCleanup (irs : IRState) (scope : CleanupScope)
    (sourceBlock cw : BlockId) : IRState × CleanupScope :=
  match scope.exitTargets with
  | [] =>
      (setTerm irs scope.endBlock (Terminator.br cw),
       { scope with exitTargets := [⟨cw, [sourceBlock]⟩] })
  | [t] =>
      if t.branchTarget = cw then
        (irs, { scope with exitTargets := [{ t with sourceBlocks := t.sourceBlocks ++ [sourceBlock] }] })
      else executeCleanupSelector irs scope sourceBlock cw
  | _ :: _ :: _ => executeCleanupSelector irs scope sourceBlock cw

/-- Association list backing the label table (`LabelTargetMap`). -/
def setLabel : List (Nat × JumpTarget) → Nat → JumpTarget → List (Nat × JumpTarget)
  | [], l, t => [(l, t)]
  | (l', t') :: rest, l, t =>
      if l' = l then (l, t) :: rest else (l', t') :: setLabel rest l t

/-- Lookup in the label table (`labelTargets.find(labelName)`). -/
def findLabel : List (Nat × JumpTarget) → Nat → Option JumpTarget
  | [], _ => none
  | (l', t') :: rest, l => if l' = l then some t' else findLabel rest l

/-- The per-function control-flow state of `ScopeStack`, together with the
IR builder state it drives. -/
structure ScopeStack where
  irs : IRState
  cleanupScopes : List CleanupScope
  topLevelUnresolvedGotos : List GotoJump
  continueTargets : List JumpTarget
  breakTargets : List JumpTarget
  labelTargets : List (Nat × JumpTarget)

/-- Modelled from the spec (inline accessor in `ir/irfunction.h`): the
current cleanup cursor — how many cleanup scopes are active. -/
def currentCleanupScope (ss : ScopeStack) : Nat := ss.cleanupScopes.length

/-- `ScopeStack::currentUnresolvedGotos`: the innermost active scope's
unresolved-goto list, or the function-level top list if no scope is active. -/
def currentUnresolvedGotos (ss : ScopeStack) : List GotoJump :=
  match ss.cleanupScopes.getLast? with
  | none => ss.topLevelUnresolvedGotos
  | some s => s.unresolvedGotos

/-- `ScopeStack::pushCleanup`. -/
def pushCleanup (ss : ScopeStack) (beginBlock endBlock : BlockId) : ScopeStack :=
  { ss with cleanupScopes := ss.cleanupScopes ++ [⟨beginBlock, endBlock, [], none, []⟩] }

/-- The `for (CleanupCursor i = currentCleanupScope(); i-- > targetScope;)`
loop of `runCleanups`: `n` iterations processing indices `lo + n - 1` down
to `lo`, each calling the Multiplexer on scope `i` with continuation
`cleanupScopes[i-1].beginBlock` when `i > lo` and `cw` when `i = lo`. -/
def runCleanupsLoop : Nat → IRState → List CleanupScope → BlockId → Nat → BlockId →
    IRState × List CleanupScope
  | 0, irs, scopes, _, _, _ => (irs, scopes)
  | n + 1, irs, scopes, src, lo, cw =>
      let i := lo + n
      let nextBlock := if lo < i then (scopes.getD (i - 1) default).beginBlock else cw
      let r := executeCleanup irs (scopes.getD i default) src nextBlock
      runCleanupsLoop n r.1 (scopes.set i r.2) src lo cw

/-- `ScopeStack::runCleanups`: unwind from the current depth down to
`targetScope`, ending in a branch to `cw`.  (The source asserts
`targetScope <= currentCleanupScope()`; theorems carry that precondition.) -/
def runCleanups (ss : ScopeStack) (targetScope : Nat) (cw : BlockId) : ScopeStack :=
  if targetScope = currentCleanupScope ss then
    { ss with irs := setTerm ss.irs ss.irs.scopebb (Terminator.br cw) }
  else
    let firstCleanup := ((ss.cleanupScopes.getLast?).map CleanupScope.beginBlock).getD 0
    let irs1 := setTerm ss.irs ss.irs.scopebb (Terminator.br firstCleanup)
    let r := runCleanupsLoop (currentCleanupScope ss - targetScope) irs1 ss.cleanupScopes
      ss.irs.scopebb targetScope cw
    { ss with irs := r.1, cleanupScopes := r.2 }

/-- `ScopeStack::runAllCleanups`. -/
def runAllCleanups (ss : ScopeStack) (cw : BlockId) : ScopeStack :=
  runCleanups ss 0 cw

/-- The inner loop of `popCleanups` for one scope being popped: for each
still-unresolved goto, redirect all uses of its placeholder to the scope's
entry block, then call the Multiplexer with source = the goto's source block
and destination = the (reused) placeholder. -/
def popCleanupsGotos (irs : IRState) (scope : CleanupScope) :
    List GotoJump → IRState × CleanupScope
  | [] => (irs, scope)
  | g :: gs =>
      let irs1 := replaceAllUsesWith irs g.tentativeTarget scope.beginBlock
      let r := executeCleanup irs1 scope g.sourceBlock g.tentativeTarget
      popCleanupsGotos r.1 r.2 gs

/-- One iteration of the `popCleanups` loop: process the innermost scope's
unresolved gotos, merge its list into the next-enclosing scope's list (or
the top-level list), and pop the scope. -/
def popCleanupsStep (ss : ScopeStack) : ScopeStack :=
  match ss.cleanupScopes.getLast? with
  | none => ss
  | some scope =>
      let rest := ss.cleanupScopes.dropLast
      let r := popCleanupsGotos ss.irs scope scope.unresolvedGotos
      match rest.getLast? with
      | none =>
          { ss with
            irs := r.1
            cleanupScopes := []
            topLevelUnresolvedGotos := ss.topLevelUnresolvedGotos ++ scope.unresolvedGotos }
      | some prev =>
          { ss with
            irs := r.1
            cleanupScopes := rest.dropLast ++
              [{ prev with unresolvedGotos := prev.unresolvedGotos ++ scope.unresolvedGotos }] }

/-- Fuel-indexed iteration of `popCleanupsStep`. -/
def popCleanupsLoop : Nat → ScopeStack → ScopeStack
  | 0, ss => ss
  | n + 1, ss => popCleanupsLoop n (popCleanupsStep ss)

/-- `ScopeStack::popCleanups`: pop every scope from the innermost down to
(but not including) `targetScope`, processing each scope's unresolved gotos
on the way. -/
def popCleanups (ss : ScopeStack) (targetScope : Nat) : ScopeStack :=
  popCleanupsLoop (currentCleanupScope ss - targetScope) ss

/-- `ScopeStack::pushLoopTarget`. -/
def pushLoopTarget (ss : ScopeStack) (loopStatement : Nat)
    (continueTarget breakTarget : BlockId) : ScopeStack :=
  { ss with
    continueTargets := ss.continueTargets ++ [⟨continueTarget, currentCleanupScope ss, loopStatement⟩],
    breakTargets := ss.breakTargets ++ [⟨breakTarget, currentCleanupScope ss, loopStatement⟩] }

/-- `ScopeStack::popLoopTarget`. -/
def popLoopTarget (ss : ScopeStack) : ScopeStack :=
  { ss with continueTargets := ss.continueTargets.dropLast,
            breakTargets := ss.breakTargets.dropLast }

/-- `ScopeStack::pushBreakTarget`. -/
def pushBreakTarget (ss : ScopeStack) (switchStatement : Nat) (targetBlock : BlockId) : ScopeStack :=
  { ss with breakTargets := ss.breakTargets ++ [⟨targetBlock, currentCleanupScope ss, switchStatement⟩] }

/-- `ScopeStack::popBreakTarget`. -/
def popBreakTarget (ss : ScopeStack) : ScopeStack :=
  { ss with breakTargets := ss.breakTargets.dropLast }

/-- The resolution loop of `addLabelTarget` over an unresolved-goto list:
entries awaiting `labelName` have their placeholder's uses redirected to
`targetBlock` and the placeholder erased, and are removed from the list;
other entries are kept. -/
def resolveGotos (irs : IRState) (labelName : Nat) (targetBlock : BlockId) :
    List GotoJump → IRState × List GotoJump
  | [] => (irs, [])
  | g :: gs =>
      if g.targetLabel = labelName then
        let irs1 := replaceAllUsesWith irs g.tentativeTarget targetBlock
        let irs2 := eraseBlock irs1 g.tentativeTarget
        resolveGotos irs2 labelName targetBlock gs
      else
        let r := resolveGotos irs labelName targetBlock gs
        (r.1, g :: r.2)

/-- Write back the current unresolved-goto list (the innermost scope's, or
the top-level one when no scope is active). -/
def setCurrentUnresolvedGotos (ss : ScopeStack) (gs : List GotoJump) : ScopeStack :=
  match ss.cleanupScopes.getLast? with
  | none => { ss with topLevelUnresolvedGotos := gs }
  | some s =>
      { ss with cleanupScopes := ss.cleanupScopes.dropLast ++ [{ s with unresolvedGotos := gs }] }

/-- `ScopeStack::addLabelTarget`: bind the label to the current block and
cursor, then resolve every goto in the current unresolved list awaiting it. -/
def addLabelTarget (ss : ScopeStack) (labelName : Nat) (targetBlock : BlockId) : ScopeStack :=
  let ss1 := { ss with
    labelTargets := setLabel ss.labelTargets labelName ⟨targetBlock, currentCleanupScope ss, 0⟩ }
  let r := resolveGotos ss1.irs labelName targetBlock (currentUnresolvedGotos ss1)
  setCurrentUnresolvedGotos { ss1 with irs := r.1 } r.2

/-- `ScopeStack::jumpToLabel`: run cleanups to an already-defined label, or
create a placeholder block, branch to it, and register a `GotoJump`. -/
def jumpToLabel (ss : ScopeStack) (loc : Nat) (labelName : Nat) : ScopeStack :=
  match findLabel ss.labelTargets labelName with
  | some t => runCleanups ss t.cleanupScope t.targetBlock
  | none =>
      let r := createBlock ss.irs
      let irs2 := setTerm r.1 r.1.scopebb (Terminator.br r.2)
      setCurrentUnresolvedGotos { ss with irs := irs2 }
        (currentUnresolvedGotos ss ++ [⟨loc, irs2.scopebb, r.2, labelName⟩])

/-- Innermost-outward search of a jump-target stack (the reverse-iterator
loop of `jumpToStatement`). -/
def findFromBack : List JumpTarget → Nat → Option JumpTarget
  | [], _ => none
  | t :: ts, st =>
      match findFromBack ts st with
      | some r => some r
      | none => if t.targetStatement = st then some t else none

/-- `ScopeStack::jumpToStatement`: search the given stack from innermost
outward for the statement and run cleanups to it; `none` models the
`assert(false)` internal-consistency failure when no entry matches. -/
def jumpToStatement (ss : ScopeStack) (targets : List JumpTarget) (stmt : Nat) :
    Option ScopeStack :=
  match findFromBack targets stmt with
  | some t => some (runCleanups ss t.cleanupScope t.targetBlock)
  | none => none

/-- `ScopeStack::jumpToClosest`: run cleanups to the topmost entry of the
given stack; `none` models the `assert(!targets.empty())` failure. -/
def jumpToClosest (ss : ScopeStack) (targets : List JumpTarget) : Option ScopeStack :=
  match targets.getLast? with
  | none => none
  | some t => some (runCleanups ss t.cleanupScope t.targetBlock)

/-- What the diagnostics collaborator observed: the locations passed to
`error(...)`, in order, and whether `fatal()` was called. -/
structure Diagnostics where
  errorLocs : List Nat
  fatalCalled : Bool
deriving DecidableEq, Repr

/-- `ScopeStack::~ScopeStack`: the end-of-function check over the top-level
unresolved-goto list — one error per remaining goto, then `fatal()`; nothing
at all when the list is empty. -/
def scopeStackDtor (ss : ScopeStack) : Diagnostics :=
  match ss.topLevelUnresolvedGotos with
  | [] => ⟨[], false⟩
  | gs => ⟨gs.map GotoJump.sourceLoc, true⟩

/-! ## Basic lemmas about the IR-builder operations -/

theorem setTerm_blocks_self (irs : IRState) (b : BlockId) (t : Terminator) :
    (setTerm irs b t).blocks b = { irs.blocks b with term := some t } := by
  simp [setTerm]

theorem setTerm_blocks_ne (irs : IRState) (b : BlockId) (t : Terminator) (b' : BlockId)
    (h : b' ≠ b) : (setTerm irs b t).blocks b' = irs.blocks b' := by
  simp [setTerm, h]

theorem setTerm_stores (irs : IRState) (b : BlockId) (t : Terminator) (b' : BlockId) :
    ((setTerm irs b t).blocks b').stores = (irs.blocks b').stores := by
  by_cases h : b' = b <;> simp [setTerm, h]

theorem insertStore_stores_self (irs : IRState) (b : BlockId) (slot : SlotId) (v : Nat) :
    ((insertStoreBeforeTerm irs b slot v).blocks b).stores
      = (irs.blocks b).stores ++ [(slot, v)] := by
  simp [insertStoreBeforeTerm]

theorem insertStore_blocks_ne (irs : IRState) (b : BlockId) (slot : SlotId) (v : Nat)
    (b' : BlockId) (h : b' ≠ b) :
    (insertStoreBeforeTerm irs b slot v).blocks b' = irs.blocks b' := by
  simp [insertStoreBeforeTerm, h]

theorem insertStore_term (irs : IRState) (b : BlockId) (slot : SlotId) (v : Nat)
    (b' : BlockId) :
    ((insertStoreBeforeTerm irs b slot v).blocks b').term = (irs.blocks b').term := by
  by_cases h : b' = b <;> simp [insertStoreBeforeTerm, h]

theorem addSwitchCase_stores (irs : IRState) (b : BlockId) (v : Nat) (tg : BlockId)
    (b' : BlockId) :
    ((addSwitchCase irs b v tg).blocks b').stores = (irs.blocks b').stores := by
  by_cases h : b' = b <;> simp [addSwitchCase, h]

theorem addSwitchCase_blocks_ne (irs : IRState) (b : BlockId) (v : Nat) (tg : BlockId)
    (b' : BlockId) (h : b' ≠ b) :
    (addSwitchCase irs b v tg).blocks b' = irs.blocks b' := by
  simp [addSwitchCase, h]

theorem addSwitchCase_term_switch (irs : IRState) (b : BlockId) (v : Nat) (tg : BlockId)
    (sel : SlotId) (d : BlockId) (cs : List (Nat × BlockId))
    (h : (irs.blocks b).term = some (Terminator.switch sel d cs)) :
    ((addSwitchCase irs b v tg).blocks b).term
      = some (Terminator.switch sel d (cs ++ [(v, tg)])) := by
  simp [addSwitchCase, h]

theorem replaceAllUsesWith_stores (irs : IRState) (o n : BlockId) (b : BlockId) :
    ((replaceAllUsesWith irs o n).blocks b).stores = (irs.blocks b).stores := by
  simp [replaceAllUsesWith]

theorem setTerm_live (irs : IRState) (b : BlockId) (t : Terminator) :
    (setTerm irs b t).live = irs.live := rfl

theorem setTerm_nextSlot (irs : IRState) (b : BlockId) (t : Terminator) :
    (setTerm irs b t).nextSlot = irs.nextSlot := rfl

theorem setTerm_scopebb (irs : IRState) (b : BlockId) (t : Terminator) :
    (setTerm irs b t).scopebb = irs.scopebb := rfl

theorem insertStore_nextSlot (irs : IRState) (b : BlockId) (slot : SlotId) (v : Nat) :
    (insertStoreBeforeTerm irs b slot v).nextSlot = irs.nextSlot := rfl

theorem addSwitchCase_nextSlot (irs : IRState) (b : BlockId) (v : Nat) (tg : BlockId) :
    (addSwitchCase irs b v tg).nextSlot = irs.nextSlot := rfl

/-! ## Lemmas about `backfillStores` -/

theorem backfillStores_term (sel : SlotId) :
    ∀ (bs : List BlockId) (irs : IRState) (b : BlockId),
      ((backfillStores irs sel bs).blocks b).term = (irs.blocks b).term := by
  intro bs
  induction bs with
  | nil => intro irs b; rfl
  | cons x xs ih =>
      intro irs b
      simp [backfillStores, ih, insertStore_term]

theorem backfillStores_stores_notMem (sel : SlotId) :
    ∀ (bs : List BlockId) (irs : IRState) (b : BlockId), b ∉ bs →
      ((backfillStores irs sel bs).blocks b).stores = (irs.blocks b).stores := by
  intro bs
  induction bs with
  | nil => intro irs b _; rfl
  | cons x xs ih =>
      intro irs b hb
      rw [List.mem_cons] at hb
      push_neg at hb
      simp [backfillStores, ih _ _ hb.2, insertStore_blocks_ne _ _ _ _ _ hb.1]

theorem backfillStores_stores_mem (sel : SlotId) :
    ∀ (bs : List BlockId) (irs : IRState) (b : BlockId), bs.Nodup → b ∈ bs →
      ((backfillStores irs sel bs).blocks b).stores
        = (irs.blocks b).stores ++ [(sel, 0)] := by
  intro bs
  induction bs with
  | nil => intro irs b _ hb; cases hb
  | cons x xs ih =>
      intro irs b hnd hb
      rcases List.mem_cons.mp hb with h | h
      · subst h
        have hx : b ∉ xs := (List.nodup_cons.mp hnd).1
        simp [backfillStores, backfillStores_stores_notMem sel xs _ _ hx,
          insertStore_stores_self]
      · have hne : b ≠ x := by
          intro he; subst he; exact (List.nodup_cons.mp hnd).1 h
        simp [backfillStores, ih _ _ (List.nodup_cons.mp hnd).2 h,
          insertStore_blocks_ne _ _ _ _ _ hne]

theorem backfillStores_live (sel : SlotId) :
    ∀ (bs : List BlockId) (irs : IRState), (backfillStores irs sel bs).live = irs.live := by
  intro bs
  induction bs with
  | nil => intro irs; rfl
  | cons x xs ih => intro irs; simp [backfillStores, ih, insertStoreBeforeTerm]

theorem backfillStores_nextSlot (sel : SlotId) :
    ∀ (bs : List BlockId) (irs : IRState),
      (backfillStores irs sel bs).nextSlot = irs.nextSlot := by
  intro bs
  induction bs with
  | nil => intro irs; rfl
  | cons x xs ih => intro irs; simp [backfillStores, ih, insertStoreBeforeTerm]

/-! ## Case lemmas for `executeCleanup` -/

theorem executeCleanup_beginBlock (irs : IRState) (scope : CleanupScope)
    (src cw : BlockId) :
    (executeCleanup irs scope src cw).2.beginBlock = scope.beginBlock := by
  rcases scope with ⟨bb, eb, ts, sel, gs⟩
  match ts with
  | [] => rfl
  | [t] =>
      by_cases h : t.branchTarget = cw <;>
        simp [executeCleanup, h, executeCleanupSelector] <;>
        cases sel <;>
        simp <;>
        rcases hf : findTargetIdx [t] cw with _ | i <;> simp [hf]
  | t1 :: t2 :: rest =>
      simp only [executeCleanup, executeCleanupSelector]
      cases sel <;> simp <;>
        rcases hf : findTargetIdx (t1 :: t2 :: rest) cw with _ | i <;> simp [hf]

theorem executeCleanup_nil (irs : IRState) (scope : CleanupScope) (src cw : BlockId)
    (h : scope.exitTargets = []) :
    executeCleanup irs scope src cw
      = (setTerm irs scope.endBlock (Terminator.br cw),
         { scope with exitTargets := [⟨cw, [src]⟩] }) := by
  rcases scope with ⟨bb, eb, ts, sel, gs⟩
  simp only at h
  subst h
  rfl

theorem executeCleanup_one_eq (irs : IRState) (scope : CleanupScope) (src cw : BlockId)
    (t : CleanupExitTarget) (h : scope.exitTargets = [t]) (hbt : t.branchTarget = cw) :
    executeCleanup irs scope src cw
      = (irs, { scope with exitTargets := [⟨cw, t.sourceBlocks ++ [src]⟩] }) := by
  rcases scope with ⟨bb, eb, ts, sel, gs⟩
  simp only at h
  subst h
  subst hbt
  simp [executeCleanup]

theorem executeCleanup_one_ne (irs : IRState) (scope : CleanupScope) (src cw : BlockId)
    (t : CleanupExitTarget) (h : scope.exitTargets = [t]) (hbt : t.branchTarget ≠ cw) :
    executeCleanup irs scope src cw = executeCleanupSelector irs scope src cw := by
  rcases scope with ⟨bb, eb, ts, sel, gs⟩
  simp only at h
  subst h
  simp [executeCleanup, hbt]

theorem executeCleanup_multi (irs : IRState) (scope : CleanupScope) (src cw : BlockId)
    (t1 t2 : CleanupExitTarget) (rest : List CleanupExitTarget)
    (h : scope.exitTargets = t1 :: t2 :: rest) :
    executeCleanup irs scope src cw = executeCleanupSelector irs scope src cw := by
  rcases scope with ⟨bb, eb, ts, sel, gs⟩
  simp only at h
  subst h
  rfl

theorem executeCleanupSelector_some_found (irs : IRState) (scope : CleanupScope)
    (sel : SlotId) (src cw : BlockId) (i : Nat)
    (hsel : scope.branchSelector = some sel)
    (hfind : findTargetIdx scope.exitTargets cw = some i) :
    executeCleanupSelector irs scope src cw
      = (insertStoreBeforeTerm irs src sel i,
         { scope with exitTargets := addSourceAt scope.exitTargets i src }) := by
  simp [executeCleanupSelector, hsel, hfind]

theorem executeCleanupSelector_some_new (irs : IRState) (scope : CleanupScope)
    (sel : SlotId) (src cw : BlockId)
    (hsel : scope.branchSelector = some sel)
    (hfind : findTargetIdx scope.exitTargets cw = none) :
    executeCleanupSelector irs scope src cw
      = (insertStoreBeforeTerm
           (addSwitchCase irs scope.endBlock scope.exitTargets.length cw)
           src sel scope.exitTargets.length,
         { scope with exitTargets := scope.exitTargets ++ [⟨cw, [src]⟩] }) := by
  simp [executeCleanupSelector, hsel, hfind]

theorem executeCleanupSelector_none (irs : IRState) (scope : CleanupScope)
    (src cw : BlockId) (hsel : scope.branchSelector = none) :
    executeCleanupSelector irs scope src cw
      = executeCleanupSelector
          (setTerm
            (backfillStores { irs with nextSlot := irs.nextSlot + 1 } irs.nextSlot
              (scope.exitTargets.headD default).sourceBlocks)
            scope.endBlock
            (Terminator.switch irs.nextSlot (scope.exitTargets.headD default).branchTarget []))
          { scope with branchSelector := some irs.nextSlot } src cw := by
  conv =>
    lhs
    rw [executeCleanupSelector]
  simp [hsel, executeCleanupSelector]

/-! ## Lemmas about `findTargetIdx` and `addSourceAt` -/

theorem findTargetIdx_none_iff (bb : BlockId) :
    ∀ ts : List CleanupExitTarget,
      findTargetIdx ts bb = none ↔ bb ∉ ts.map CleanupExitTarget.branchTarget := by
  intro ts
  induction ts with
  | nil => simp [findTargetIdx]
  | cons t rest ih =>
      by_cases h : t.branchTarget = bb
      · simp [findTargetIdx, h]
      · simp [findTargetIdx, h, ih, Ne.symm h]

theorem findTargetIdx_some_mem (bb : BlockId) (ts : List CleanupExitTarget) (i : Nat)
    (h : findTargetIdx ts bb = some i) : bb ∈ ts.map CleanupExitTarget.branchTarget := by
  by_contra hm
  rw [← findTargetIdx_none_iff] at hm
  rw [h] at hm
  cases hm

theorem findTargetIdx_some_spec (bb : BlockId) :
    ∀ (ts : List CleanupExitTarget) (i : Nat), findTargetIdx ts bb = some i →
      i < ts.length ∧ (ts.getD i default).branchTarget = bb ∧
        ∀ j, j < i → (ts.getD j default).branchTarget ≠ bb := by
  intro ts
  induction ts with
  | nil => intro i h; cases h
  | cons t rest ih =>
      intro i h
      by_cases hb : t.branchTarget = bb
      · simp [findTargetIdx, hb] at h
        subst h
        exact ⟨Nat.succ_pos _, hb, fun j hj => absurd hj (Nat.not_lt_zero _)⟩
      · simp [findTargetIdx, hb] at h
        rcases h with ⟨i', hi', hii⟩
        subst hii
        rcases ih i' hi' with ⟨hlen, hget, hfirst⟩
        refine ⟨Nat.succ_lt_succ hlen, hget, ?_⟩
        intro j hj
        match j with
        | 0 => simpa using hb
        | j' + 1 => exact hfirst j' (Nat.lt_of_succ_lt_succ hj)

theorem addSourceAt_map_branchTarget (b : BlockId) :
    ∀ (ts : List CleanupExitTarget) (i : Nat),
      (addSourceAt ts i b).map CleanupExitTarget.branchTarget
        = ts.map CleanupExitTarget.branchTarget := by
  intro ts
  induction ts with
  | nil => intro i; rfl
  | cons t rest ih =>
      intro i
      match i with
      | 0 => simp [addSourceAt]
      | i' + 1 => simp [addSourceAt, ih i']

theorem addSourceAt_length (b : BlockId) :
    ∀ (ts : List CleanupExitTarget) (i : Nat), (addSourceAt ts i b).length = ts.length := by
  intro ts
  induction ts with
  | nil => intro i; rfl
  | cons t rest ih =>
      intro i
      match i with
      | 0 => simp [addSourceAt]
      | i' + 1 => simp [addSourceAt, ih i']

/-! ## The single-destination / selector invariant -/

/-- The invariant of a cleanup scope (spec §3): no selector and no exit
branch while there are no exit targets; no selector and a plain
unconditional exit branch while there is exactly one; a selector slot and a
switch on it whose default case is the first target's destination as soon as
there are at least two. -/
def scopeInv (irs : IRState) (scope : CleanupScope) : Prop :=
  (scope.exitTargets = [] → scope.branchSelector = none)
  ∧ (∀ t, scope.exitTargets = [t] →
      scope.branchSelector = none
      ∧ (irs.blocks scope.endBlock).term = some (Terminator.br t.branchTarget))
  ∧ (∀ t1 t2 rest, scope.exitTargets = t1 :: t2 :: rest →
      ∃ sel cs, scope.branchSelector = some sel
        ∧ (irs.blocks scope.endBlock).term
            = some (Terminator.switch sel t1.branchTarget cs))

theorem executeCleanup_preserves_inv (irs : IRState) (scope : CleanupScope)
    (src cw : BlockId) (hinv : scopeInv irs scope) :
    scopeInv (executeCleanup irs scope src cw).1 (executeCleanup irs scope src cw).2 := by
  obtain ⟨h0, h1, h2⟩ := hinv
  match hts : scope.exitTargets with
  | [] =>
      rw [executeCleanup_nil irs scope src cw hts]
      refine ⟨by simp, ?_, by intro t1 t2 rest ht; simp at ht⟩
      intro t ht
      simp only at ht
      obtain rfl : t = ⟨cw, [src]⟩ := by
        have := List.cons_eq_cons.mp ht
        exact this.1.symm
      exact ⟨h0 hts, by simp [setTerm_blocks_self]⟩
  | [t] =>
      by_cases hb : t.branchTarget = cw
      · rw [executeCleanup_one_eq irs scope src cw t hts hb]
        refine ⟨by simp, ?_, by intro t1 t2 rest ht; simp at ht⟩
        intro u hu
        simp only at hu
        obtain rfl : u = ⟨cw, t.sourceBlocks ++ [src]⟩ := (List.cons_eq_cons.mp hu).1.symm
        refine ⟨(h1 t hts).1, ?_⟩
        have := (h1 t hts).2
        rw [hb] at this
        simpa using this
      · rw [executeCleanup_one_ne irs scope src cw t hts hb]
        rw [executeCleanupSelector_none irs scope src cw (h1 t hts).1]
        have hfind : findTargetIdx
            ({ scope with branchSelector := some irs.nextSlot } : CleanupScope).exitTargets cw
            = none := by
          simp only [hts]
          simp [findTargetIdx, hb]
        rw [executeCleanupSelector_some_new _ _ irs.nextSlot _ _ rfl hfind]
        refine ⟨?_, ?_, ?_⟩
        · intro h; simp only [hts] at h; simp at h
        · intro u hu; simp only [hts] at hu; simp at hu
        · intro u1 u2 urest hu
          simp only [hts] at hu
          have h1' := List.cons_eq_cons.mp hu
          obtain rfl := h1'.1.symm
          have h2' := List.cons_eq_cons.mp h1'.2
          obtain rfl : u2 = ⟨cw, [src]⟩ := h2'.1.symm
          refine ⟨irs.nextSlot, [(1, cw)], rfl, ?_⟩
          rw [insertStore_term]
          have hterm :
              ((setTerm
                (backfillStores { irs with nextSlot := irs.nextSlot + 1 } irs.nextSlot
                  (scope.exitTargets.headD default).sourceBlocks)
                scope.endBlock (Terminator.switch irs.nextSlot
                  (scope.exitTargets.headD default).branchTarget [])).blocks
                scope.endBlock).term
              = some (Terminator.switch irs.nextSlot
                  (scope.exitTargets.headD default).branchTarget []) := by
            simp [setTerm_blocks_self]
          have hcase := addSwitchCase_term_switch _ _
            (({ scope with branchSelector := some irs.nextSlot } : CleanupScope).exitTargets.length)
            cw _ _ _ hterm
          simp only [hts] at hcase
          simpa [hts] using hcase
  | t1 :: t2 :: rest =>
      rw [executeCleanup_multi irs scope src cw t1 t2 rest hts]
      rcases h2 t1 t2 rest hts with ⟨slo, cs, hsel, hterm⟩
      rcases hfind : findTargetIdx scope.exitTargets cw with _ | i
      · -- new destination: a switch case is appended
        rw [executeCleanupSelector_some_new _ _ slo _ _ hsel hfind]
        refine ⟨?_, ?_, ?_⟩
        · intro h; simp only [hts] at h; simp at h
        · intro u hu; simp only [hts] at hu; simp at hu
        · intro u1 u2 urest hu
          simp only [hts] at hu
          obtain rfl : u1 = t1 := by
            rw [List.cons_append] at hu
            exact (List.cons_eq_cons.mp hu).1.symm
          refine ⟨slo, cs ++ [(scope.exitTargets.length, cw)], hsel, ?_⟩
          rw [insertStore_term]
          exact addSwitchCase_term_switch _ _ _ _ _ _ _ hterm
      · -- known destination: only a store is inserted
        rw [executeCleanupSelector_some_found _ _ slo _ _ _ hsel hfind]
        have hmap := addSourceAt_map_branchTarget src scope.exitTargets i
        refine ⟨?_, ?_, ?_⟩
        · intro h
          have := congrArg List.length h
          simp only [addSourceAt_length, hts] at this
          simp at this
        · intro u hu
          have := congrArg List.length hu
          simp only [addSourceAt_length, hts] at this
          simp at this
        · intro u1 u2 urest hu
          have hbt : u1.branchTarget = t1.branchTarget := by
            have hm2 : (u1 :: u2 :: urest).map CleanupExitTarget.branchTarget
                = (t1 :: t2 :: rest).map CleanupExitTarget.branchTarget := by
              rw [← hu, hmap, hts]
            have hm3 : u1.branchTarget = t1.branchTarget ∧
                u2.branchTarget = t2.branchTarget ∧
                urest.map CleanupExitTarget.branchTarget
                  = rest.map CleanupExitTarget.branchTarget := by
              simpa using hm2
            exact hm3.1
          refine ⟨slo, cs, hsel, ?_⟩
          rw [insertStore_term, hbt]
          exact hterm

/-! ## Claim C1 -/

/-- C1: `executeCleanup` maintains the single-destination/selector
invariant: while at most one distinct exit destination has been requested,
no selector slot exists and the scope's exit block ends in a plain
unconditional branch to that destination — created on the first call, which
also appends the source block to the target's source-block list; the first
time a second distinct destination is requested, exactly one selector slot
is allocated, a store of value 0 is inserted immediately before the
terminator of every source block previously recorded against the sole
existing exit target, and the exit block's unconditional-branch terminator
is replaced by a switch on the loaded selector whose default/first case is
the original destination. -/
theorem executeCleanup_selector_invariant (irs : IRState) (scope : CleanupScope)
    (src cw : BlockId) (hinv : scopeInv irs scope) :
    scopeInv (executeCleanup irs scope src cw).1 (executeCleanup irs scope src cw).2
  ∧ (scope.exitTargets = [] →
      executeCleanup irs scope src cw
        = (setTerm irs scope.endBlock (Terminator.br cw),
           { scope with exitTargets := [⟨cw, [src]⟩] }))
  ∧ (∀ t, scope.exitTargets = [t] → t.branchTarget = cw →
      executeCleanup irs scope src cw
        = (irs, { scope with exitTargets := [⟨cw, t.sourceBlocks ++ [src]⟩] }))
  ∧ (∀ t, scope.exitTargets = [t] → t.branchTarget ≠ cw → t.sourceBlocks.Nodup →
      src ∉ t.sourceBlocks →
      (executeCleanup irs scope src cw).2.branchSelector = some irs.nextSlot
      ∧ (executeCleanup irs scope src cw).1.nextSlot = irs.nextSlot + 1
      ∧ (∀ b ∈ t.sourceBlocks,
          ((executeCleanup irs scope src cw).1.blocks b).stores
            = (irs.blocks b).stores ++ [(irs.nextSlot, 0)])
      ∧ ((executeCleanup irs scope src cw).1.blocks scope.endBlock).term
          = some (Terminator.switch irs.nextSlot t.branchTarget [(1, cw)])
      ∧ (executeCleanup irs scope src cw).2.exitTargets = [t, ⟨cw, [src]⟩]) := by
  refine ⟨executeCleanup_preserves_inv irs scope src cw hinv, ?_, ?_, ?_⟩
  · intro h
    exact executeCleanup_nil irs scope src cw h
  · intro t ht hbt
    exact executeCleanup_one_eq irs scope src cw t ht hbt
  · intro t ht hbt hnd hsrc
    obtain ⟨h0, h1, h2⟩ := hinv
    rw [executeCleanup_one_ne irs scope src cw t ht hbt,
        executeCleanupSelector_none irs scope src cw (h1 t ht).1,
        executeCleanupSelector_some_new _ _ irs.nextSlot _ _ rfl
          (by simp only [ht]; simp [findTargetIdx, hbt])]
    refine ⟨rfl, ?_, ?_, ?_, ?_⟩
    · simp [insertStore_nextSlot, addSwitchCase_nextSlot, setTerm_nextSlot,
        backfillStores_nextSlot]
    · intro b hb
      have hbne : b ≠ src := fun he => hsrc (he ▸ hb)
      rw [insertStore_blocks_ne _ _ _ _ _ hbne, addSwitchCase_stores, setTerm_stores]
      have hhead : (scope.exitTargets.headD default).sourceBlocks = t.sourceBlocks := by
        simp [ht]
      rw [hhead]
      exact backfillStores_stores_mem irs.nextSlot t.sourceBlocks _ b hnd hb
    · rw [insertStore_term]
      have hterm :
          ((setTerm
            (backfillStores { irs with nextSlot := irs.nextSlot + 1 } irs.nextSlot
              (scope.exitTargets.headD default).sourceBlocks)
            scope.endBlock (Terminator.switch irs.nextSlot
              (scope.exitTargets.headD default).branchTarget [])).blocks
            scope.endBlock).term
          = some (Terminator.switch irs.nextSlot
              (scope.exitTargets.headD default).branchTarget []) := by
        simp [setTerm_blocks_self]
      have hcase := addSwitchCase_term_switch _ _
        (({ scope with branchSelector := some irs.nextSlot } : CleanupScope).exitTargets.length)
        cw _ _ _ hterm
      simp only [ht] at hcase
      simpa [ht] using hcase
    · simp [ht]

def wIRS : IRState := ⟨fun _ => ⟨[], none⟩, [], 50, 7, 40⟩

def wScope0 : CleanupScope := ⟨10, 11, [], none, []⟩

theorem executeCleanup_selector_invariant_witness :
    scopeInv wIRS wScope0
    ∧ executeCleanup wIRS wScope0 4 5
        = (setTerm wIRS 11 (Terminator.br 5), { wScope0 with exitTargets := [⟨5, [4]⟩] }) := by
  have hinv : scopeInv wIRS wScope0 := by
    refine ⟨fun _ => rfl, ?_, ?_⟩
    · intro t ht
      exact absurd ht (by simp [wScope0])
    · intro t1 t2 rest ht
      exact absurd ht (by simp [wScope0])
  exact ⟨hinv, (executeCleanup_selector_invariant wIRS wScope0 4 5 hinv).2.1 rfl⟩

/-! ## Claim C2 -/

/-- The ordered list of distinct destinations of a cleanup scope; the
position of a destination in this list is its selector index. -/
def destinations (scope : CleanupScope) : List BlockId :=
  scope.exitTargets.map CleanupExitTarget.branchTarget

theorem executeCleanupSelector_destinations_some (irs : IRState) (scope : CleanupScope)
    (src cw : BlockId) (sel : SlotId) (hsel : scope.branchSelector = some sel) :
    destinations (executeCleanupSelector irs scope src cw).2
      = if cw ∈ destinations scope then destinations scope
        else destinations scope ++ [cw] := by
  rcases hfind : findTargetIdx scope.exitTargets cw with _ | i
  · rw [executeCleanupSelector_some_new irs scope sel src cw hsel hfind]
    have hm : cw ∉ destinations scope := (findTargetIdx_none_iff cw scope.exitTargets).mp hfind
    rw [if_neg hm]
    simp [destinations]
  · rw [executeCleanupSelector_some_found irs scope sel src cw i hsel hfind]
    have hm : cw ∈ destinations scope := findTargetIdx_some_mem cw scope.exitTargets i hfind
    rw [if_pos hm]
    simp [destinations, addSourceAt_map_branchTarget]

theorem executeCleanupSelector_destinations (irs : IRState) (scope : CleanupScope)
    (src cw : BlockId) :
    destinations (executeCleanupSelector irs scope src cw).2
      = if cw ∈ destinations scope then destinations scope
        else destinations scope ++ [cw] := by
  rcases hsel : scope.branchSelector with _ | sel
  · rw [executeCleanupSelector_none irs scope src cw hsel]
    exact executeCleanupSelector_destinations_some _ _ src cw irs.nextSlot rfl
  · exact executeCleanupSelector_destinations_some irs scope src cw sel hsel

theorem executeCleanup_destinations (irs : IRState) (scope : CleanupScope)
    (src cw : BlockId) :
    destinations (executeCleanup irs scope src cw).2
      = if cw ∈ destinations scope then destinations scope
        else destinations scope ++ [cw] := by
  match hts : scope.exitTargets with
  | [] =>
      rw [executeCleanup_nil irs scope src cw hts]
      simp [destinations, hts]
  | [t] =>
      by_cases hb : t.branchTarget = cw
      · rw [executeCleanup_one_eq irs scope src cw t hts hb]
        simp [destinations, hts, hb]
      · rw [executeCleanup_one_ne irs scope src cw t hts hb]
        exact executeCleanupSelector_destinations irs scope src cw
  | t1 :: t2 :: rest =>
      rw [executeCleanup_multi irs scope src cw t1 t2 rest hts]
      exact executeCleanupSelector_destinations irs scope src cw

theorem getD_map_branchTarget :
    ∀ (ts : List CleanupExitTarget) (j : Nat), j < ts.length →
      (ts.map CleanupExitTarget.branchTarget).getD j 0
        = (ts.getD j default).branchTarget := by
  intro ts
  induction ts with
  | nil => intro j h; cases h
  | cons t rest ih =>
      intro j h
      match j with
      | 0 => rfl
      | j' + 1 => exact ih j' (Nat.lt_of_succ_lt_succ h)

theorem getD_append_left {α : Type} (l₁ l₂ : List α) (j : Nat) (d : α)
    (h : j < l₁.length) : (l₁ ++ l₂).getD j d = l₁.getD j d := by
  induction l₁ generalizing j with
  | nil => cases h
  | cons x xs ih =>
      match j with
      | 0 => rfl
      | j' + 1 => exact ih j' (Nat.lt_of_succ_lt_succ h)

theorem executeCleanup_length_mono (irs : IRState) (scope : CleanupScope)
    (src cw : BlockId) :
    scope.exitTargets.length ≤ (executeCleanup irs scope src cw).2.exitTargets.length := by
  have hd := executeCleanup_destinations irs scope src cw
  have h1 : (executeCleanup irs scope src cw).2.exitTargets.length
      = (destinations (executeCleanup irs scope src cw).2).length := by
    simp [destinations]
  have h2 : scope.exitTargets.length = (destinations scope).length := by
    simp [destinations]
  rw [h1, h2, hd]
  by_cases hm : cw ∈ destinations scope <;> simp [hm]

theorem executeCleanup_no_reassign (irs : IRState) (scope : CleanupScope)
    (src cw : BlockId) (j : Nat) (hj : j < scope.exitTargets.length) :
    ((executeCleanup irs scope src cw).2.exitTargets.getD j default).branchTarget
      = (scope.exitTargets.getD j default).branchTarget := by
  have hd := executeCleanup_destinations irs scope src cw
  have hj2 : j < (executeCleanup irs scope src cw).2.exitTargets.length :=
    Nat.lt_of_lt_of_le hj (executeCleanup_length_mono irs scope src cw)
  rw [← getD_map_branchTarget _ j hj2, ← getD_map_branchTarget _ j hj]
  show (destinations (executeCleanup irs scope src cw).2).getD j 0
      = (destinations scope).getD j 0
  rw [hd]
  by_cases hm : cw ∈ destinations scope
  · simp [hm]
  · simp only [hm, if_false]
    exact getD_append_left _ _ j 0 (by simpa [destinations] using hj)

/-- C2 counterexample: on a scope whose single exit target's destination is
already the requested continuation, the destination is known at index 0 but
`executeCleanup` emits no store at all (the IR state is returned unchanged),
contradicting the claim that a destination already known at index i always
gets a store of i before the source block's terminator. -/
theorem executeCleanup_known_dest_no_store :
    findTargetIdx ([⟨5, [2]⟩] : List CleanupExitTarget) 5 = some 0
    ∧ executeCleanup wIRS ⟨10, 11, [⟨5, [2]⟩], none, []⟩ 3 5
        = (wIRS, ⟨10, 11, [⟨5, [2, 3]⟩], none, []⟩)
    ∧ ((executeCleanup wIRS ⟨10, 11, [⟨5, [2]⟩], none, []⟩ 3 5).1.blocks 3).stores = [] :=
  ⟨rfl, rfl, rfl⟩

/-- C2 (amended): selector index assignment by `executeCleanup` is
deterministic and stable: the list of distinct destinations is preserved
unchanged when the requested continuation is already known and extended by
exactly that continuation at index `exit-target count` otherwise, so indices
are strictly increasing in order of first occurrence and no index is ever
reassigned; once the scope has a branch selector (at least two distinct
destinations), a destination already known at (first-occurrence) index i
gets only a store of i before the source block's terminator, and a new
distinct destination gets a new switch case at index `exit-target count`
plus a store of that index; when the selector is created by the second
distinct destination, the source block receives a store of index 1 (the
exit-target count at that moment).  (When the sole existing destination is
re-requested, no store is emitted — the unconditional exit branch already
suffices.) -/
theorem executeCleanup_selector_indices (irs : IRState) (scope : CleanupScope)
    (src cw : BlockId) :
    destinations (executeCleanup irs scope src cw).2
      = (if cw ∈ destinations scope then destinations scope
         else destinations scope ++ [cw])
  ∧ (∀ j, j < scope.exitTargets.length →
      ((executeCleanup irs scope src cw).2.exitTargets.getD j default).branchTarget
        = (scope.exitTargets.getD j default).branchTarget)
  ∧ (∀ sel, scope.branchSelector = some sel → 2 ≤ scope.exitTargets.length →
      (∀ i, findTargetIdx scope.exitTargets cw = some i →
        executeCleanup irs scope src cw
          = (insertStoreBeforeTerm irs src sel i,
             { scope with exitTargets := addSourceAt scope.exitTargets i src })
        ∧ i < scope.exitTargets.length
        ∧ (scope.exitTargets.getD i default).branchTarget = cw
        ∧ (∀ j, j < i → (scope.exitTargets.getD j default).branchTarget ≠ cw))
      ∧ (findTargetIdx scope.exitTargets cw = none →
        executeCleanup irs scope src cw
          = (insertStoreBeforeTerm
               (addSwitchCase irs scope.endBlock scope.exitTargets.length cw)
               src sel scope.exitTargets.length,
             { scope with exitTargets := scope.exitTargets ++ [⟨cw, [src]⟩] })))
  ∧ (∀ t, scope.exitTargets = [t] → t.branchTarget ≠ cw →
      scope.branchSelector = none → src ∉ t.sourceBlocks →
      ((executeCleanup irs scope src cw).1.blocks src).stores
        = (irs.blocks src).stores ++ [(irs.nextSlot, 1)]
      ∧ destinations (executeCleanup irs scope src cw).2 = [t.branchTarget, cw]) := by
  refine ⟨executeCleanup_destinations irs scope src cw,
    fun j hj => executeCleanup_no_reassign irs scope src cw j hj, ?_, ?_⟩
  · intro sel hsel hlen
    have hmulti : executeCleanup irs scope src cw = executeCleanupSelector irs scope src cw := by
      match hts : scope.exitTargets with
      | [] => rw [hts] at hlen; cases hlen
      | [t] => rw [hts] at hlen; exact absurd hlen (by simp)
      | t1 :: t2 :: rest => exact executeCleanup_multi irs scope src cw t1 t2 rest hts
    constructor
    · intro i hfind
      rw [hmulti, executeCleanupSelector_some_found irs scope sel src cw i hsel hfind]
      rcases findTargetIdx_some_spec cw scope.exitTargets i hfind with ⟨ha, hb, hc⟩
      exact ⟨rfl, ha, hb, hc⟩
    · intro hfind
      rw [hmulti, executeCleanupSelector_some_new irs scope sel src cw hsel hfind]
  · intro t hts hbt hsel hsrc
    rw [executeCleanup_one_ne irs scope src cw t hts hbt,
        executeCleanupSelector_none irs scope src cw hsel,
        executeCleanupSelector_some_new _ _ irs.nextSlot _ _ rfl
          (by simp only [hts]; simp [findTargetIdx, hbt])]
    constructor
    · have hlen1 : ({ scope with branchSelector := some irs.nextSlot } :
          CleanupScope).exitTargets.length = 1 := by simp [hts]
      rw [hlen1, insertStore_stores_self, addSwitchCase_stores, setTerm_stores,
        backfillStores_stores_notMem irs.nextSlot _ _ src (by simp [hts]; exact hsrc)]
    · simp [destinations, hts]

def wScope2 : CleanupScope := ⟨10, 11, [⟨5, [2]⟩, ⟨6, [3]⟩], some 7, []⟩

theorem executeCleanup_selector_indices_witness :
    wScope2.branchSelector = some 7
    ∧ 2 ≤ wScope2.exitTargets.length
    ∧ findTargetIdx wScope2.exitTargets 6 = some 1
    ∧ executeCleanup wIRS wScope2 4 6
        = (insertStoreBeforeTerm wIRS 4 7 1,
           { wScope2 with exitTargets := addSourceAt wScope2.exitTargets 1 4 }) := by
  refine ⟨rfl, by decide, rfl, ?_⟩
  exact (((executeCleanup_selector_indices wIRS wScope2 4 6).2.2.1 7 rfl
    (by decide)).1 1 rfl).1

/-! ## Claim C3 -/

theorem getD_set_ne {α : Type} (a d : α) :
    ∀ (l : List α) (i j : Nat), j ≠ i → (l.set i a).getD j d = l.getD j d := by
  intro l
  induction l with
  | nil => intro i j _; rfl
  | cons x xs ih =>
      intro i j hne
      match i, j with
      | 0, 0 => exact absurd rfl hne
      | 0, j' + 1 => rfl
      | i' + 1, 0 => rfl
      | i' + 1, j' + 1 => exact ih i' j' (fun he => hne (by rw [he]))

theorem getD_set_self {α : Type} (a d : α) :
    ∀ (l : List α) (i : Nat),
      (l.set i a).getD i d = if i < l.length then a else l.getD i d := by
  intro l
  induction l with
  | nil => intro i; simp
  | cons x xs ih =>
      intro i
      match i with
      | 0 => simp
      | i' + 1 =>
          show (xs.set i' a).getD i' d = _
          rw [ih i']
          simp [Nat.succ_lt_succ_iff]

/-- The scope indices walked by the unwind loop: `lo + n - 1`, …, `lo`
(innermost outward, down to but not including the target cursor). -/
def descFrom (lo : Nat) : Nat → List Nat
  | 0 => []
  | n + 1 => (lo + n) :: descFrom lo n

/-- Written from the spec's words (§4.2): the continuation passed to the
Multiplexer for scope `i` — the entry block of scope `i-1` for all but the
outermost scope unwound, and the final continuation for the outermost one
(`i = k`).  Continuations are read off the original scope list. -/
def specContinuation (scopes : List CleanupScope) (k : Nat) (cw : BlockId) (i : Nat) : BlockId :=
  if i = k then cw else (scopes.getD (i - 1) default).beginBlock

/-- One Multiplexer call per listed (scope index, continuation) pair. -/
def specChain (src : BlockId) :
    IRState → List CleanupScope → List (Nat × BlockId) → IRState × List CleanupScope
  | irs, scopes, [] => (irs, scopes)
  | irs, scopes, (i, c) :: rest =>
      let r := executeCleanup irs (scopes.getD i default) src c
      specChain src r.1 (scopes.set i r.2) rest

/-- Written from the spec's words (§4.2), for comparison with `runCleanups`:
branch the current block directly to the continuation when the target cursor
equals the current depth; otherwise branch into the innermost scope's entry
block and call the Multiplexer exactly once per scope from innermost outward
down to (but not including) the target cursor, with `specContinuation` as
each scope's continuation. -/
def runCleanupsSpec (ss : ScopeStack) (k : Nat) (cw : BlockId) : ScopeStack :=
  if k = currentCleanupScope ss then
    { ss with irs := setTerm ss.irs ss.irs.scopebb (Terminator.br cw) }
  else
    let scopes := ss.cleanupScopes
    let irs1 := setTerm ss.irs ss.irs.scopebb
      (Terminator.br (((scopes.getLast?).map CleanupScope.beginBlock).getD 0))
    let pairs := (descFrom k (scopes.length - k)).map
      (fun i => (i, specContinuation scopes k cw i))
    let r := specChain ss.irs.scopebb irs1 scopes pairs
    { ss with irs := r.1, cleanupScopes := r.2 }

theorem runCleanupsLoop_eq_specChain (scopes0 : List CleanupScope) (src : BlockId)
    (lo : Nat) (cw : BlockId) :
    ∀ (n : Nat) (irs : IRState) (scopes : List CleanupScope),
      (∀ j, (scopes.getD j default).beginBlock = (scopes0.getD j default).beginBlock) →
      runCleanupsLoop n irs scopes src lo cw
        = specChain src irs scopes
            ((descFrom lo n).map (fun i => (i, specContinuation scopes0 lo cw i))) := by
  intro n
  induction n with
  | zero => intro irs scopes _; rfl
  | succ m ih =>
      intro irs scopes hag
      have hc : (if lo < lo + m then (scopes.getD (lo + m - 1) default).beginBlock else cw)
          = specContinuation scopes0 lo cw (lo + m) := by
        unfold specContinuation
        match m with
        | 0 => simp
        | m' + 1 =>
            have h1 : lo < lo + (m' + 1) := by omega
            have h2 : ¬(lo + (m' + 1) = lo) := by omega
            rw [if_pos h1, if_neg h2]
            have h3 : lo + (m' + 1) - 1 = lo + m' := by omega
            rw [h3]
            exact hag (lo + m')
      have hrfl : runCleanupsLoop (m + 1) irs scopes src lo cw
          = runCleanupsLoop m
              (executeCleanup irs (scopes.getD (lo + m) default) src
                (if lo < lo + m then (scopes.getD (lo + m - 1) default).beginBlock else cw)).1
              (scopes.set (lo + m)
                (executeCleanup irs (scopes.getD (lo + m) default) src
                  (if lo < lo + m then (scopes.getD (lo + m - 1) default).beginBlock
                   else cw)).2)
              src lo cw := rfl
      rw [hrfl, hc]
      have hspec : specChain src irs scopes
            ((descFrom lo (m + 1)).map (fun i => (i, specContinuation scopes0 lo cw i)))
          = specChain src
              (executeCleanup irs (scopes.getD (lo + m) default) src
                (specContinuation scopes0 lo cw (lo + m))).1
              (scopes.set (lo + m)
                (executeCleanup irs (scopes.getD (lo + m) default) src
                  (specContinuation scopes0 lo cw (lo + m))).2)
              ((descFrom lo m).map (fun i => (i, specContinuation scopes0 lo cw i))) := rfl
      rw [hspec]
      apply ih
      intro j
      by_cases hj : j = lo + m
      · rw [hj, getD_set_self]
        by_cases hlt : lo + m < scopes.length
        · rw [if_pos hlt, executeCleanup_beginBlock]
          exact hag (lo + m)
        · rw [if_neg hlt]
          exact hag (lo + m)
      · rw [getD_set_ne _ _ _ _ _ hj]
        exact hag j

/-- C3: under the precondition `targetCursor ≤ current depth`, `runCleanups`
degenerates to a single direct branch from the current block to the
continuation with no scope state mutated when the cursor equals the depth,
and otherwise branches the current block into the innermost scope's entry
block and calls the Cleanup Multiplexer exactly once per scope from
innermost outward down to (but not including) the target cursor, passing as
continuation the entry block of the next scope out for all but the
outermost unwound scope and the requested continuation for that one;
`runAllCleanups cw` equals `runCleanups 0 cw`. -/
theorem runCleanups_matches_spec (ss : ScopeStack) (k : Nat) (cw : BlockId)
    (h : k ≤ currentCleanupScope ss) :
    runCleanups ss k cw = runCleanupsSpec ss k cw
  ∧ (k = currentCleanupScope ss →
      runCleanups ss k cw
        = { ss with irs := setTerm ss.irs ss.irs.scopebb (Terminator.br cw) })
  ∧ runAllCleanups ss cw = runCleanups ss 0 cw := by
  refine ⟨?_, ?_, rfl⟩
  · by_cases he : k = currentCleanupScope ss
    · rw [runCleanups, runCleanupsSpec, if_pos he, if_pos he]
    · rw [runCleanups, runCleanupsSpec, if_neg he, if_neg he]
      have hloop := runCleanupsLoop_eq_specChain ss.cleanupScopes ss.irs.scopebb k cw
        (currentCleanupScope ss - k)
        (setTerm ss.irs ss.irs.scopebb
          (Terminator.br (((ss.cleanupScopes.getLast?).map CleanupScope.beginBlock).getD 0)))
        ss.cleanupScopes (fun _ => rfl)
      exact congrArg
        (fun p => ({ ss with irs := p.1, cleanupScopes := p.2 } : ScopeStack)) hloop
  · intro he
    rw [runCleanups, if_pos he]

def wStack1 : ScopeStack := ⟨wIRS, [⟨10, 11, [], none, []⟩], [], [], [], []⟩

theorem runCleanups_matches_spec_witness :
    0 ≤ currentCleanupScope wStack1
    ∧ runCleanups wStack1 0 5 = runCleanupsSpec wStack1 0 5 :=
  ⟨Nat.zero_le _, (runCleanups_matches_spec wStack1 0 5 (Nat.zero_le _)).1⟩

/-! ## Claim C4 -/

/-- The unresolved gotos of a list of scopes, concatenated in stack order
(outermost scope's list first). -/
def joinGotos (scopes : List CleanupScope) : List GotoJump :=
  (scopes.map CleanupScope.unresolvedGotos).flatten

/-- Append gotos to the unresolved list of the last (innermost) scope. -/
def appendGotosToLast : List CleanupScope → List GotoJump → List CleanupScope
  | [], _ => []
  | [s], gs => [{ s with unresolvedGotos := s.unresolvedGotos ++ gs }]
  | s :: s' :: rest, gs => s :: appendGotosToLast (s' :: rest) gs

theorem appendGotosToLast_gotos_nil : ∀ l : List CleanupScope, appendGotosToLast l [] = l := by
  intro l
  match l with
  | [] => rfl
  | [s] => simp [appendGotosToLast]
  | s :: s' :: rest =>
      show s :: appendGotosToLast (s' :: rest) [] = s :: s' :: rest
      rw [appendGotosToLast_gotos_nil (s' :: rest)]

theorem appendGotosToLast_length (gs : List GotoJump) :
    ∀ l : List CleanupScope, (appendGotosToLast l gs).length = l.length := by
  intro l
  match l with
  | [] => rfl
  | [s] => rfl
  | s :: s' :: rest =>
      show (s :: appendGotosToLast (s' :: rest) gs).length = _
      simp [appendGotosToLast_length gs (s' :: rest)]

theorem appendGotosToLast_concat (gs : List GotoJump) (last : CleanupScope) :
    ∀ l : List CleanupScope,
      appendGotosToLast (l ++ [last]) gs
        = l ++ [{ last with unresolvedGotos := last.unresolvedGotos ++ gs }] := by
  intro l
  match l with
  | [] => rfl
  | [s] => rfl
  | s :: s' :: rest =>
      show s :: appendGotosToLast ((s' :: rest) ++ [last]) gs
          = s :: ((s' :: rest) ++ [{ last with unresolvedGotos := last.unresolvedGotos ++ gs }])
      rw [appendGotosToLast_concat gs last (s' :: rest)]

theorem appendGotosToLast_take (gs : List GotoJump) :
    ∀ (l : List CleanupScope) (k : Nat), k < l.length →
      (appendGotosToLast l gs).take k = l.take k := by
  intro l
  match l with
  | [] => intro k hk; cases hk
  | [s] =>
      intro k hk
      have hk0 : k = 0 := by
        have : k < 1 := by simpa using hk
        omega
      subst hk0
      rfl
  | s :: s' :: rest =>
      intro k hk
      match k with
      | 0 => rfl
      | k' + 1 =>
          show s :: (appendGotosToLast (s' :: rest) gs).take k' = s :: (s' :: rest).take k'
          rw [appendGotosToLast_take gs (s' :: rest) k' (by simpa using hk)]

theorem appendGotosToLast_drop (gs : List GotoJump) :
    ∀ (l : List CleanupScope) (k : Nat), k < l.length →
      (appendGotosToLast l gs).drop k = appendGotosToLast (l.drop k) gs := by
  intro l
  match l with
  | [] => intro k hk; cases hk
  | [s] =>
      intro k hk
      have hk0 : k = 0 := by
        have : k < 1 := by simpa using hk
        omega
      subst hk0
      rfl
  | s :: s' :: rest =>
      intro k hk
      match k with
      | 0 => rfl
      | k' + 1 =>
          show (appendGotosToLast (s' :: rest) gs).drop k'
              = appendGotosToLast ((s' :: rest).drop k') gs
          exact appendGotosToLast_drop gs (s' :: rest) k' (by simpa using hk)

theorem joinGotos_concat (l : List CleanupScope) (s : CleanupScope) :
    joinGotos (l ++ [s]) = joinGotos l ++ s.unresolvedGotos := by
  simp [joinGotos]

theorem joinGotos_single (s : CleanupScope) : joinGotos [s] = s.unresolvedGotos := by
  simp [joinGotos]

theorem joinGotos_appendGotosToLast (gs : List GotoJump) :
    ∀ l : List CleanupScope, l ≠ [] →
      joinGotos (appendGotosToLast l gs) = joinGotos l ++ gs := by
  intro l
  match l with
  | [] => intro h; exact absurd rfl h
  | [s] => intro _; simp [appendGotosToLast, joinGotos]
  | s :: s' :: rest =>
      intro _
      show joinGotos (s :: appendGotosToLast (s' :: rest) gs) = _
      have hrec := joinGotos_appendGotosToLast gs (s' :: rest) (by simp)
      simp only [joinGotos, List.map_cons, List.flatten_cons] at hrec ⊢
      rw [hrec]
      simp [List.append_assoc]

theorem popCleanupsStep_concat (ss : ScopeStack) (init : List CleanupScope)
    (last : CleanupScope) (h : ss.cleanupScopes = init ++ [last]) :
    popCleanupsStep ss
      = { ss with
          irs := (popCleanupsGotos ss.irs last last.unresolvedGotos).1
          cleanupScopes := appendGotosToLast init last.unresolvedGotos
          topLevelUnresolvedGotos :=
            if init = [] then ss.topLevelUnresolvedGotos ++ last.unresolvedGotos
            else ss.topLevelUnresolvedGotos } := by
  rcases List.eq_nil_or_concat init with hi | ⟨init', prev, hi⟩
  · subst hi
    rw [popCleanupsStep, h]
    simp [appendGotosToLast]
  · rw [List.concat_eq_append] at hi
    subst hi
    rw [popCleanupsStep, h]
    rw [List.getLast?_concat]
    simp only
    rw [List.dropLast_concat, List.getLast?_concat]
    simp only
    rw [List.dropLast_concat]
    rw [appendGotosToLast_concat]
    rw [if_neg (by simp)]

theorem popCleanupsLoop_char :
    ∀ (n : Nat) (ss : ScopeStack), n ≤ ss.cleanupScopes.length →
      (popCleanupsLoop n ss).cleanupScopes
          = appendGotosToLast (ss.cleanupScopes.take (ss.cleanupScopes.length - n))
              (joinGotos (ss.cleanupScopes.drop (ss.cleanupScopes.length - n)))
      ∧ (popCleanupsLoop n ss).topLevelUnresolvedGotos
          = (if ss.cleanupScopes.length - n = 0
             then ss.topLevelUnresolvedGotos ++ joinGotos ss.cleanupScopes
             else ss.topLevelUnresolvedGotos)
      ∧ (popCleanupsLoop n ss).continueTargets = ss.continueTargets
      ∧ (popCleanupsLoop n ss).breakTargets = ss.breakTargets
      ∧ (popCleanupsLoop n ss).labelTargets = ss.labelTargets := by
  intro n
  induction n with
  | zero =>
      intro ss _
      refine ⟨?_, ?_, rfl, rfl, rfl⟩
      · rw [Nat.sub_zero, List.take_length, List.drop_length]
        show ss.cleanupScopes = appendGotosToLast ss.cleanupScopes (joinGotos [])
        rw [show joinGotos [] = [] from rfl, appendGotosToLast_gotos_nil]
      · rw [Nat.sub_zero]
        by_cases h0 : ss.cleanupScopes.length = 0
        · rw [if_pos h0]
          have he : ss.cleanupScopes = [] := List.length_eq_zero.mp h0
          rw [he]
          show ss.topLevelUnresolvedGotos = ss.topLevelUnresolvedGotos ++ joinGotos []
          rw [show joinGotos [] = [] from rfl, List.append_nil]
        · rw [if_neg h0]
          rfl
  | succ m ih =>
      intro ss hn
      rcases List.eq_nil_or_concat ss.cleanupScopes with he | ⟨init, last, he⟩
      · rw [he] at hn
        simp at hn
      · rw [List.concat_eq_append] at he
        have hstep := popCleanupsStep_concat ss init last he
        have hf1 : (popCleanupsStep ss).cleanupScopes
            = appendGotosToLast init last.unresolvedGotos := by rw [hstep]
        have hf2 : (popCleanupsStep ss).topLevelUnresolvedGotos
            = (if init = [] then ss.topLevelUnresolvedGotos ++ last.unresolvedGotos
               else ss.topLevelUnresolvedGotos) := by rw [hstep]
        have hf3 : (popCleanupsStep ss).continueTargets = ss.continueTargets := by rw [hstep]
        have hf4 : (popCleanupsStep ss).breakTargets = ss.breakTargets := by rw [hstep]
        have hf5 : (popCleanupsStep ss).labelTargets = ss.labelTargets := by rw [hstep]
        have hlen : ss.cleanupScopes.length = init.length + 1 := by rw [he]; simp
        have hm : m ≤ init.length := by omega
        have hSlen : (popCleanupsStep ss).cleanupScopes.length = init.length := by
          rw [hf1, appendGotosToLast_length]
        obtain ⟨ih1, ih2, ih3, ih4, ih5⟩ := ih (popCleanupsStep ss) (by rw [hSlen]; exact hm)
        have hloop : popCleanupsLoop (m + 1) ss = popCleanupsLoop m (popCleanupsStep ss) := rfl
        rw [hloop]
        have hK : ss.cleanupScopes.length - (m + 1) = init.length - m := by omega
        have hK2 : (init ++ [last]).length - (m + 1) = init.length - m := by
          simp only [List.length_append, List.length_singleton]
          omega
        refine ⟨?_, ?_, ?_, ?_, ?_⟩
        · rw [ih1, hf1, appendGotosToLast_length, he, hK2]
          have hKle : init.length - m ≤ init.length := Nat.sub_le _ _
          rcases Nat.lt_or_eq_of_le hKle with hKlt | hKeq
          · rw [appendGotosToLast_take _ _ _ hKlt, appendGotosToLast_drop _ _ _ hKlt,
              List.take_append_of_le_length (Nat.le_of_lt hKlt),
              List.drop_append_of_le_length (Nat.le_of_lt hKlt)]
            have hdropne : init.drop (init.length - m) ≠ [] := by
              intro hd
              have := List.drop_eq_nil_iff.mp hd
              omega
            rw [joinGotos_appendGotosToLast _ _ hdropne, joinGotos_concat]
          · rw [hKeq]
            rw [show (appendGotosToLast init last.unresolvedGotos).take init.length
                = appendGotosToLast init last.unresolvedGotos from by
              conv_lhs => rw [← appendGotosToLast_length last.unresolvedGotos init]
              exact List.take_length _]
            rw [show (appendGotosToLast init last.unresolvedGotos).drop init.length
                = [] from by
              conv_lhs => rw [← appendGotosToLast_length last.unresolvedGotos init]
              exact List.drop_length _]
            rw [show joinGotos [] = [] from rfl, appendGotosToLast_gotos_nil,
              List.take_left, List.drop_left, joinGotos_single]
        · rw [ih2, hf2, hf1, appendGotosToLast_length, he, hK2]
          by_cases hK0 : init.length - m = 0
          · rw [if_pos hK0, if_pos hK0]
            by_cases hinit : init = []
            · rw [if_pos hinit, hinit]
              rw [show appendGotosToLast ([] : List CleanupScope) last.unresolvedGotos
                  = [] from rfl]
              rw [show joinGotos [] = [] from rfl, List.append_nil, List.nil_append,
                joinGotos_single]
            · rw [if_neg hinit, joinGotos_appendGotosToLast _ _ hinit, joinGotos_concat]
          · rw [if_neg hK0, if_neg hK0]
            have hinit : init ≠ [] := by
              intro hi
              rw [hi] at hK0
              simp at hK0
            rw [if_neg hinit]
        · rw [ih3, hf3]
        · rw [ih4, hf4]
        · rw [ih5, hf5]

/-- Two nested cleanup scopes (entry/exit blocks 0/1 outer, 2/3 inner) with
one unresolved goto registered against the inner scope: source block 4
currently branches to placeholder block 5, awaiting label 9. -/
def gIRS : IRState :=
  ⟨fun b => if b = 4 then ⟨[], some (Terminator.br 5)⟩ else ⟨[], none⟩,
   [0, 1, 2, 3, 4, 5], 6, 0, 4⟩

def gStack : ScopeStack :=
  ⟨gIRS, [⟨0, 1, [], none, []⟩, ⟨2, 3, [], none, [⟨7, 4, 5, 9⟩]⟩], [], [], [], []⟩

/-- C4: `popCleanups` pops every scope from the innermost down to the target
cursor, redirecting each unresolved goto's placeholder into the scope being
popped and calling the Multiplexer once for it, and merges each popped
scope's unresolved-goto list onto the end of the next-enclosing scope's
list (or the top-level list when popping the outermost scope): afterwards
the remaining stack is the first `targetCursor` scopes with the popped
scopes' gotos appended, in order, to the new innermost scope's list, with
no goto duplicated or lost.  Consequently (concrete two-scope scenario) a
goto issued inside two cleanup scopes whose label is still undefined when
both are popped accumulates exactly one Multiplexer edge per popped scope:
its source block branches into the inner scope's entry, the inner scope's
exit branches into the outer scope's entry, the outer scope's exit
branches to the (still pending) placeholder, and the goto record sits
exactly once in the top-level list. -/
theorem popCleanups_merges_gotos (ss : ScopeStack) (k : Nat)
    (h : k ≤ currentCleanupScope ss) :
    (popCleanups ss k).cleanupScopes
        = appendGotosToLast (ss.cleanupScopes.take k) (joinGotos (ss.cleanupScopes.drop k))
  ∧ (popCleanups ss k).topLevelUnresolvedGotos
        = (if k = 0 then ss.topLevelUnresolvedGotos ++ joinGotos ss.cleanupScopes
           else ss.topLevelUnresolvedGotos)
  ∧ (popCleanups ss k).continueTargets = ss.continueTargets
  ∧ (popCleanups ss k).breakTargets = ss.breakTargets
  ∧ (popCleanups ss k).labelTargets = ss.labelTargets
  ∧ ((popCleanups gStack 0).topLevelUnresolvedGotos = [⟨7, 4, 5, 9⟩]
      ∧ (popCleanups gStack 0).cleanupScopes = []
      ∧ ((popCleanups gStack 0).irs.blocks 4).term = some (Terminator.br 2)
      ∧ ((popCleanups gStack 0).irs.blocks 3).term = some (Terminator.br 0)
      ∧ ((popCleanups gStack 0).irs.blocks 1).term = some (Terminator.br 5)) := by
  have hchar := popCleanupsLoop_char (currentCleanupScope ss - k) ss
    (by simp only [currentCleanupScope]; omega)
  have hK : ss.cleanupScopes.length - (currentCleanupScope ss - k) = k := by
    simp only [currentCleanupScope] at h ⊢
    omega
  rw [hK] at hchar
  obtain ⟨h1, h2, h3, h4, h5⟩ := hchar
  exact ⟨h1, h2, h3, h4, h5, rfl, rfl, rfl, rfl, rfl⟩

theorem popCleanups_merges_gotos_witness :
    0 ≤ currentCleanupScope gStack
    ∧ (popCleanups gStack 0).topLevelUnresolvedGotos = [⟨7, 4, 5, 9⟩] :=
  ⟨Nat.zero_le _, ((popCleanups_merges_gotos gStack 0 (Nat.zero_le _)).2.2.2.2.2).1⟩

/-! ## Claims C5 and C6: label resolution machinery -/

/-- The placeholder blocks of the gotos in `gs` that await label `l`. -/
def matchedTentatives (l : Nat) (gs : List GotoJump) : List BlockId :=
  (gs.filter (fun g => g.targetLabel == l)).map GotoJump.tentativeTarget

/-- Simultaneous redirection: any block in `tents` becomes `nb`. -/
def replTargetMulti (tents : List BlockId) (nb x : BlockId) : BlockId :=
  if x ∈ tents then nb else x

/-- `replTermMulti` lifts `replTargetMulti` over a terminator. -/
def replTermMulti (tents : List BlockId) (nb : BlockId) : Terminator → Terminator
  | Terminator.br t => Terminator.br (replTargetMulti tents nb t)
  | Terminator.switch sel d cs =>
      Terminator.switch sel (replTargetMulti tents nb d)
        (cs.map (fun c => (c.1, replTargetMulti tents nb c.2)))

theorem replTermMulti_nil (nb : BlockId) (tm : Terminator) : replTermMulti [] nb tm = tm := by
  cases tm <;> simp [replTermMulti, replTargetMulti]

theorem replTargetMulti_comp (ts : List BlockId) (nb t x : BlockId) :
    replTargetMulti ts nb (if x = t then nb else x) = replTargetMulti (t :: ts) nb x := by
  by_cases hx : x = t
  · subst hx
    simp [replTargetMulti]
  · simp [replTargetMulti, hx]

theorem replTermMulti_comp (ts : List BlockId) (nb t : BlockId) (tm : Terminator) :
    replTermMulti ts nb (replTerm t nb tm) = replTermMulti (t :: ts) nb tm := by
  cases tm with
  | br tg => simp [replTerm, replTermMulti, replTargetMulti_comp]
  | switch sel d cs =>
      simp only [replTerm, replTermMulti, List.map_map, replTargetMulti_comp]
      congr 1
      apply List.map_congr_left
      intro c _
      simp [Function.comp, replTargetMulti_comp]

theorem eraseBlock_blocks (irs : IRState) (b b' : BlockId) :
    (eraseBlock irs b).blocks b' = irs.blocks b' := rfl

theorem replaceAllUsesWith_term (irs : IRState) (o n : BlockId) (b : BlockId) :
    ((replaceAllUsesWith irs o n).blocks b).term
      = ((irs.blocks b).term).map (replTerm o n) := rfl

theorem matchedTentatives_cons_match (l : Nat) (g : GotoJump) (rest : List GotoJump)
    (hg : g.targetLabel = l) :
    matchedTentatives l (g :: rest) = g.tentativeTarget :: matchedTentatives l rest := by
  simp [matchedTentatives, hg]

theorem matchedTentatives_cons_skip (l : Nat) (g : GotoJump) (rest : List GotoJump)
    (hg : ¬ g.targetLabel = l) :
    matchedTentatives l (g :: rest) = matchedTentatives l rest := by
  simp [matchedTentatives, hg]

theorem matchedTentatives_append (l : Nat) (xs ys : List GotoJump) :
    matchedTentatives l (xs ++ ys) = matchedTentatives l xs ++ matchedTentatives l ys := by
  simp [matchedTentatives]

theorem resolveGotos_cons_match (irs : IRState) (l : Nat) (tb : BlockId) (g : GotoJump)
    (rest : List GotoJump) (hg : g.targetLabel = l) :
    resolveGotos irs l tb (g :: rest)
      = resolveGotos (eraseBlock (replaceAllUsesWith irs g.tentativeTarget tb)
          g.tentativeTarget) l tb rest := by
  simp [resolveGotos, hg]

theorem resolveGotos_cons_skip (irs : IRState) (l : Nat) (tb : BlockId) (g : GotoJump)
    (rest : List GotoJump) (hg : ¬ g.targetLabel = l) :
    resolveGotos irs l tb (g :: rest)
      = ((resolveGotos irs l tb rest).1, g :: (resolveGotos irs l tb rest).2) := by
  simp [resolveGotos, hg]

theorem resolveGotos_snd (l : Nat) (tb : BlockId) :
    ∀ (gs : List GotoJump) (irs : IRState),
      (resolveGotos irs l tb gs).2 = gs.filter (fun g => g.targetLabel != l) := by
  intro gs
  induction gs with
  | nil => intro irs; rfl
  | cons g rest ih =>
      intro irs
      by_cases hg : g.targetLabel = l
      · rw [resolveGotos_cons_match irs l tb g rest hg, ih]
        simp [List.filter_cons, hg]
      · rw [resolveGotos_cons_skip irs l tb g rest hg]
        simp [List.filter_cons, hg, ih]

theorem resolveGotos_term (l : Nat) (tb : BlockId) :
    ∀ (gs : List GotoJump) (irs : IRState) (b : BlockId),
      ((resolveGotos irs l tb gs).1.blocks b).term
        = ((irs.blocks b).term).map (replTermMulti (matchedTentatives l gs) tb) := by
  intro gs
  induction gs with
  | nil =>
      intro irs b
      show (irs.blocks b).term = _
      rcases htm : (irs.blocks b).term with _ | tm
      · rfl
      · simp [matchedTentatives, replTermMulti_nil]
  | cons g rest ih =>
      intro irs b
      by_cases hg : g.targetLabel = l
      · rw [resolveGotos_cons_match irs l tb g rest hg, ih,
          matchedTentatives_cons_match l g rest hg]
        rw [show ((eraseBlock (replaceAllUsesWith irs g.tentativeTarget tb)
            g.tentativeTarget).blocks b).term
            = ((irs.blocks b).term).map (replTerm g.tentativeTarget tb) from rfl]
        rw [Option.map_map]
        rcases (irs.blocks b).term with _ | tm
        · rfl
        · simp [Function.comp, replTermMulti_comp]
      · rw [resolveGotos_cons_skip irs l tb g rest hg,
          matchedTentatives_cons_skip l g rest hg]
        exact ih irs b

theorem resolveGotos_live_subset (l : Nat) (tb : BlockId) :
    ∀ (gs : List GotoJump) (irs : IRState) (x : BlockId),
      x ∈ (resolveGotos irs l tb gs).1.live → x ∈ irs.live := by
  intro gs
  induction gs with
  | nil => intro irs x hx; exact hx
  | cons g rest ih =>
      intro irs x hx
      by_cases hg : g.targetLabel = l
      · rw [resolveGotos_cons_match irs l tb g rest hg] at hx
        have hx2 := ih _ x hx
        exact List.mem_of_mem_erase hx2
      · rw [resolveGotos_cons_skip irs l tb g rest hg] at hx
        exact ih irs x hx

theorem resolveGotos_live_nodup (l : Nat) (tb : BlockId) :
    ∀ (gs : List GotoJump) (irs : IRState), irs.live.Nodup →
      (resolveGotos irs l tb gs).1.live.Nodup := by
  intro gs
  induction gs with
  | nil => intro irs h; exact h
  | cons g rest ih =>
      intro irs h
      by_cases hg : g.targetLabel = l
      · rw [resolveGotos_cons_match irs l tb g rest hg]
        exact ih _ (List.Nodup.erase _ h)
      · rw [resolveGotos_cons_skip irs l tb g rest hg]
        exact ih irs h

theorem resolveGotos_erased (l : Nat) (tb : BlockId) :
    ∀ (gs : List GotoJump) (irs : IRState), irs.live.Nodup →
      ∀ g ∈ gs, g.targetLabel = l →
        g.tentativeTarget ∉ (resolveGotos irs l tb gs).1.live := by
  intro gs
  induction gs with
  | nil => intro irs _ g hg; cases hg
  | cons g' rest ih =>
      intro irs hnd g hg hl
      by_cases hg' : g'.targetLabel = l
      · rw [resolveGotos_cons_match irs l tb g' rest hg']
        rcases List.mem_cons.mp hg with he | hm
        · subst he
          intro hmem
          have h1 := resolveGotos_live_subset l tb rest _ _ hmem
          have h2 : g.tentativeTarget ∈ irs.live.erase g.tentativeTarget := h1
          rw [List.Nodup.mem_erase_iff hnd] at h2
          exact h2.1 rfl
        · exact ih _ (List.Nodup.erase _ hnd) g hm hl
      · rcases List.mem_cons.mp hg with he | hm
        · subst he
          exact absurd hl hg'
        · rw [resolveGotos_cons_skip irs l tb g' rest hg']
          exact ih irs hnd g hm hl

theorem findLabel_setLabel_self :
    ∀ (m : List (Nat × JumpTarget)) (l : Nat) (t : JumpTarget),
      findLabel (setLabel m l t) l = some t := by
  intro m
  induction m with
  | nil => intro l t; simp [setLabel, findLabel]
  | cons p rest ih =>
      intro l t
      rcases p with ⟨l', t'⟩
      by_cases hp : l' = l
      · simp [setLabel, hp, findLabel]
      · simp [setLabel, hp, findLabel, ih]

theorem findLabel_setLabel_ne :
    ∀ (m : List (Nat × JumpTarget)) (l' l : Nat) (t : JumpTarget), l' ≠ l →
      findLabel (setLabel m l' t) l = findLabel m l := by
  intro m
  induction m with
  | nil => intro l' l t hne; simp [setLabel, findLabel, hne]
  | cons p rest ih =>
      intro l' l t hne
      rcases p with ⟨lp, tp⟩
      by_cases hp : lp = l'
      · subst hp
        simp [setLabel, findLabel, hne, ih]
      · simp [setLabel, hp, findLabel]
        by_cases hpl : lp = l
        · simp [hpl]
        · simp [hpl, ih l' l t hne]

theorem setCurrent_irs (ss : ScopeStack) (gs : List GotoJump) :
    (setCurrentUnresolvedGotos ss gs).irs = ss.irs := by
  rw [setCurrentUnresolvedGotos]
  rcases ss.cleanupScopes.getLast? with _ | s <;> rfl

theorem setCurrent_labelTargets (ss : ScopeStack) (gs : List GotoJump) :
    (setCurrentUnresolvedGotos ss gs).labelTargets = ss.labelTargets := by
  rw [setCurrentUnresolvedGotos]
  rcases ss.cleanupScopes.getLast? with _ | s <;> rfl

theorem setCurrent_continueTargets (ss : ScopeStack) (gs : List GotoJump) :
    (setCurrentUnresolvedGotos ss gs).continueTargets = ss.continueTargets := by
  rw [setCurrentUnresolvedGotos]
  rcases ss.cleanupScopes.getLast? with _ | s <;> rfl

theorem setCurrent_breakTargets (ss : ScopeStack) (gs : List GotoJump) :
    (setCurrentUnresolvedGotos ss gs).breakTargets = ss.breakTargets := by
  rw [setCurrentUnresolvedGotos]
  rcases ss.cleanupScopes.getLast? with _ | s <;> rfl

theorem setCurrent_current (ss : ScopeStack) (gs : List GotoJump) :
    currentUnresolvedGotos (setCurrentUnresolvedGotos ss gs) = gs := by
  rcases List.eq_nil_or_concat ss.cleanupScopes with he | ⟨init, s, he⟩
  · rw [setCurrentUnresolvedGotos, he]
    rfl
  · rw [List.concat_eq_append] at he
    rw [setCurrentUnresolvedGotos, he, List.getLast?_concat]
    simp only
    rw [List.dropLast_concat]
    rw [currentUnresolvedGotos]
    simp only [he]
    rw [List.getLast?_concat]

theorem setCurrent_dropLast (ss : ScopeStack) (gs : List GotoJump) :
    (setCurrentUnresolvedGotos ss gs).cleanupScopes.dropLast
      = ss.cleanupScopes.dropLast := by
  rcases List.eq_nil_or_concat ss.cleanupScopes with he | ⟨init, s, he⟩
  · rw [setCurrentUnresolvedGotos, he]
    rfl
  · rw [List.concat_eq_append] at he
    rw [setCurrentUnresolvedGotos, he, List.getLast?_concat]
    simp only
    rw [List.dropLast_concat, List.dropLast_concat]

theorem setCurrent_top_of_ne (ss : ScopeStack) (gs : List GotoJump)
    (h : ss.cleanupScopes ≠ []) :
    (setCurrentUnresolvedGotos ss gs).topLevelUnresolvedGotos
      = ss.topLevelUnresolvedGotos := by
  rcases List.eq_nil_or_concat ss.cleanupScopes with he | ⟨init, s, he⟩
  · exact absurd he h
  · rw [List.concat_eq_append] at he
    rw [setCurrentUnresolvedGotos, he, List.getLast?_concat]

theorem setCurrent_of_nil (ss : ScopeStack) (gs : List GotoJump)
    (h : ss.cleanupScopes = []) :
    (setCurrentUnresolvedGotos ss gs).topLevelUnresolvedGotos = gs
    ∧ (setCurrentUnresolvedGotos ss gs).cleanupScopes = [] := by
  rw [setCurrentUnresolvedGotos, h]
  exact ⟨rfl, rfl⟩

theorem addLabelTarget_unfold (ss : ScopeStack) (l : Nat) (b : BlockId) :
    addLabelTarget ss l b
      = setCurrentUnresolvedGotos
          { ss with
            irs := (resolveGotos ss.irs l b (currentUnresolvedGotos ss)).1
            labelTargets := setLabel ss.labelTargets l ⟨b, currentCleanupScope ss, 0⟩ }
          (resolveGotos ss.irs l b (currentUnresolvedGotos ss)).2 := rfl

theorem addLabelTarget_term_subst (ss : ScopeStack) (l : Nat) (b : BlockId) :
    ∀ b', ((addLabelTarget ss l b).irs.blocks b').term
      = ((ss.irs.blocks b').term).map
          (replTermMulti (matchedTentatives l (currentUnresolvedGotos ss)) b) := by
  intro b'
  rw [addLabelTarget_unfold, setCurrent_irs]
  exact resolveGotos_term l b (currentUnresolvedGotos ss) ss.irs b'

theorem addLabelTarget_live_erased (ss : ScopeStack) (l : Nat) (b : BlockId)
    (hnd : ss.irs.live.Nodup) :
    ∀ g ∈ currentUnresolvedGotos ss, g.targetLabel = l →
      g.tentativeTarget ∉ (addLabelTarget ss l b).irs.live := by
  intro g hg hl
  rw [addLabelTarget_unfold, setCurrent_irs]
  exact resolveGotos_erased l b (currentUnresolvedGotos ss) ss.irs hnd g hg hl

theorem currentUnresolvedGotos_of_nil (ss : ScopeStack) (h : ss.cleanupScopes = []) :
    currentUnresolvedGotos ss = ss.topLevelUnresolvedGotos := by
  rw [currentUnresolvedGotos, h]
  rfl

theorem jumpToLabel_found (ss : ScopeStack) (loc l : Nat) (t : JumpTarget)
    (hfind : findLabel ss.labelTargets l = some t) :
    jumpToLabel ss loc l = runCleanups ss t.cleanupScope t.targetBlock := by
  rw [jumpToLabel, hfind]

theorem jumpToLabel_not_found (ss : ScopeStack) (loc l : Nat)
    (hfind : findLabel ss.labelTargets l = none) :
    jumpToLabel ss loc l
      = setCurrentUnresolvedGotos
          { ss with
            irs := setTerm (createBlock ss.irs).1 ss.irs.scopebb
                (Terminator.br ss.irs.nextBlock) }
          (currentUnresolvedGotos ss
            ++ [⟨loc, ss.irs.scopebb, ss.irs.nextBlock, l⟩]) := by
  rw [jumpToLabel, hfind]
  rfl

/-! ## Claim C5 -/

/-- C5: `addLabelTarget` binds the label to the pair (block, current cleanup
cursor) and then scans only the current (innermost, or top-level) unresolved
list: entries awaiting the label are removed from the list, every use of
their placeholder blocks is redirected to the real block, and the
placeholders are deleted from the function; entries awaiting other labels
and every other scope's list are left in place.  In particular a goto to a
not-yet-defined label followed by `addLabelTarget` for that label with no
intervening push or pop eliminates the (fresh) placeholder and redirects
the goto's branch to the label's real block. -/
theorem addLabelTarget_spec (ss : ScopeStack) (l : Nat) (b : BlockId) :
    findLabel (addLabelTarget ss l b).labelTargets l
        = some ⟨b, currentCleanupScope ss, 0⟩
  ∧ currentUnresolvedGotos (addLabelTarget ss l b)
        = (currentUnresolvedGotos ss).filter (fun g => g.targetLabel != l)
  ∧ (∀ b', ((addLabelTarget ss l b).irs.blocks b').term
        = ((ss.irs.blocks b').term).map
            (replTermMulti (matchedTentatives l (currentUnresolvedGotos ss)) b))
  ∧ (ss.irs.live.Nodup →
      ∀ g ∈ currentUnresolvedGotos ss, g.targetLabel = l →
        g.tentativeTarget ∉ (addLabelTarget ss l b).irs.live)
  ∧ (addLabelTarget ss l b).continueTargets = ss.continueTargets
  ∧ (addLabelTarget ss l b).breakTargets = ss.breakTargets
  ∧ (addLabelTarget ss l b).cleanupScopes.dropLast = ss.cleanupScopes.dropLast
  ∧ (ss.cleanupScopes ≠ [] →
      (addLabelTarget ss l b).topLevelUnresolvedGotos = ss.topLevelUnresolvedGotos)
  ∧ (∀ loc, findLabel ss.labelTargets l = none → ss.irs.nextBlock ∉ ss.irs.live →
      ss.irs.live.Nodup →
      ss.irs.nextBlock ∉ (addLabelTarget (jumpToLabel ss loc l) l b).irs.live
      ∧ ((addLabelTarget (jumpToLabel ss loc l) l b).irs.blocks ss.irs.scopebb).term
          = some (Terminator.br b)) := by
  refine ⟨?_, ?_, addLabelTarget_term_subst ss l b, addLabelTarget_live_erased ss l b,
    ?_, ?_, ?_, ?_, ?_⟩
  · rw [addLabelTarget_unfold, setCurrent_labelTargets]
    exact findLabel_setLabel_self _ l _
  · rw [addLabelTarget_unfold, setCurrent_current]
    exact resolveGotos_snd l b (currentUnresolvedGotos ss) ss.irs
  · rw [addLabelTarget_unfold, setCurrent_continueTargets]
  · rw [addLabelTarget_unfold, setCurrent_breakTargets]
  · rw [addLabelTarget_unfold, setCurrent_dropLast]
  · intro hne
    rw [addLabelTarget_unfold]
    exact setCurrent_top_of_ne _ _ hne
  · intro loc hfind hfresh hnd
    have hj := jumpToLabel_not_found ss loc l hfind
    have hirs : (jumpToLabel ss loc l).irs
        = setTerm (createBlock ss.irs).1 ss.irs.scopebb
            (Terminator.br ss.irs.nextBlock) := by
      rw [hj, setCurrent_irs]
    have hlive : (jumpToLabel ss loc l).irs.live
        = ss.irs.nextBlock :: ss.irs.live := by
      rw [hirs]
      rfl
    have hnd1 : (jumpToLabel ss loc l).irs.live.Nodup := by
      rw [hlive]
      exact List.nodup_cons.mpr ⟨hfresh, hnd⟩
    have hcur : currentUnresolvedGotos (jumpToLabel ss loc l)
        = currentUnresolvedGotos ss ++ [⟨loc, ss.irs.scopebb, ss.irs.nextBlock, l⟩] := by
      rw [hj, setCurrent_current]
    constructor
    · exact addLabelTarget_live_erased (jumpToLabel ss loc l) l b hnd1
        ⟨loc, ss.irs.scopebb, ss.irs.nextBlock, l⟩
        (by rw [hcur]; exact List.mem_append_right _ (by simp)) rfl
    · rw [addLabelTarget_term_subst (jumpToLabel ss loc l) l b ss.irs.scopebb, hcur]
      have hterm1 : ((jumpToLabel ss loc l).irs.blocks ss.irs.scopebb).term
          = some (Terminator.br ss.irs.nextBlock) := by
        rw [hirs]
        simp [setTerm_blocks_self]
      rw [hterm1]
      have hp : ss.irs.nextBlock ∈ matchedTentatives l
          (currentUnresolvedGotos ss
            ++ [⟨loc, ss.irs.scopebb, ss.irs.nextBlock, l⟩]) := by
        rw [matchedTentatives_append]
        apply List.mem_append_right
        simp [matchedTentatives]
      simp [replTermMulti, replTargetMulti, hp]

theorem addLabelTarget_spec_witness :
    findLabel wStack1.labelTargets 2 = none
    ∧ wStack1.irs.nextBlock ∉ wStack1.irs.live
    ∧ wStack1.irs.live.Nodup
    ∧ ((addLabelTarget (jumpToLabel wStack1 1 2) 2 8).irs.blocks 40).term
        = some (Terminator.br 8) := by
  refine ⟨rfl, by simp [wStack1, wIRS], by simp [wStack1, wIRS], ?_⟩
  exact ((addLabelTarget_spec wStack1 2 8).2.2.2.2.2.2.2.2 1 rfl
    (by simp [wStack1, wIRS]) (by simp [wStack1, wIRS])).2

/-! ## Claim C6 -/

/-- C6: `jumpToLabel` behaves in exactly two ways: for a label already in
the table it runs the cleanups recorded for that label (cursor and block)
and changes nothing else; for an unknown label it creates a fresh
placeholder block, branches the current block unconditionally to it, and
appends a GotoJump record (location, current block, placeholder, label) to
the innermost cleanup scope's unresolved list, or to the function-level top
list when no cleanup scope is active. -/
theorem jumpToLabel_two_ways (ss : ScopeStack) (loc l : Nat) :
    (∀ t, findLabel ss.labelTargets l = some t →
        jumpToLabel ss loc l = runCleanups ss t.cleanupScope t.targetBlock)
  ∧ (findLabel ss.labelTargets l = none →
        (jumpToLabel ss loc l).irs.scopebb = ss.irs.scopebb
      ∧ ((jumpToLabel ss loc l).irs.blocks ss.irs.scopebb).term
          = some (Terminator.br ss.irs.nextBlock)
      ∧ ss.irs.nextBlock ∈ (jumpToLabel ss loc l).irs.live
      ∧ (jumpToLabel ss loc l).irs.nextBlock = ss.irs.nextBlock + 1
      ∧ currentUnresolvedGotos (jumpToLabel ss loc l)
          = currentUnresolvedGotos ss ++ [⟨loc, ss.irs.scopebb, ss.irs.nextBlock, l⟩]
      ∧ (jumpToLabel ss loc l).labelTargets = ss.labelTargets
      ∧ (jumpToLabel ss loc l).cleanupScopes.dropLast = ss.cleanupScopes.dropLast
      ∧ (jumpToLabel ss loc l).continueTargets = ss.continueTargets
      ∧ (jumpToLabel ss loc l).breakTargets = ss.breakTargets
      ∧ (ss.cleanupScopes ≠ [] →
          (jumpToLabel ss loc l).topLevelUnresolvedGotos = ss.topLevelUnresolvedGotos)
      ∧ (ss.cleanupScopes = [] →
          (jumpToLabel ss loc l).topLevelUnresolvedGotos
            = ss.topLevelUnresolvedGotos
                ++ [⟨loc, ss.irs.scopebb, ss.irs.nextBlock, l⟩])) := by
  constructor
  · intro t ht
    exact jumpToLabel_found ss loc l t ht
  · intro hfind
    have hj := jumpToLabel_not_found ss loc l hfind
    have hirs : (jumpToLabel ss loc l).irs
        = setTerm (createBlock ss.irs).1 ss.irs.scopebb
            (Terminator.br ss.irs.nextBlock) := by
      rw [hj, setCurrent_irs]
    refine ⟨?_, ?_, ?_, ?_, ?_, ?_, ?_, ?_, ?_, ?_, ?_⟩
    · rw [hirs]
      rfl
    · rw [hirs]
      simp [setTerm_blocks_self]
    · rw [hirs]
      show ss.irs.nextBlock ∈ ss.irs.nextBlock :: ss.irs.live
      exact List.mem_cons_self _ _
    · rw [hirs]
      rfl
    · rw [hj, setCurrent_current]
    · rw [hj, setCurrent_labelTargets]
    · rw [hj, setCurrent_dropLast]
    · rw [hj, setCurrent_continueTargets]
    · rw [hj, setCurrent_breakTargets]
    · intro hne
      rw [hj]
      exact setCurrent_top_of_ne _ _ hne
    · intro hnil
      rw [hj]
      rw [(setCurrent_of_nil _ _ (show ({ ss with
            irs := setTerm (createBlock ss.irs).1 ss.irs.scopebb
                (Terminator.br ss.irs.nextBlock) } : ScopeStack).cleanupScopes = []
          from hnil)).1]
      rw [currentUnresolvedGotos_of_nil ss hnil]

def wStack2 : ScopeStack := ⟨wIRS, [], [], [], [], [(3, ⟨8, 0, 0⟩)]⟩

theorem jumpToLabel_two_ways_witness :
    findLabel wStack2.labelTargets 3 = some ⟨8, 0, 0⟩
    ∧ jumpToLabel wStack2 1 3 = runCleanups wStack2 0 8 :=
  ⟨rfl, (jumpToLabel_two_ways wStack2 1 3).1 ⟨8, 0, 0⟩ rfl⟩

/-! ## Claim C7 -/

/-- C7: at end-of-function, a non-empty top-level unresolved-goto list
produces exactly one location-tagged error per remaining GotoJump followed
by a single fatal abort; an empty list produces no diagnostics call at all. -/
theorem scopeStackDtor_diagnostics (ss : ScopeStack) :
    (scopeStackDtor ss).errorLocs = ss.topLevelUnresolvedGotos.map GotoJump.sourceLoc
  ∧ ((scopeStackDtor ss).fatalCalled = true ↔ ss.topLevelUnresolvedGotos ≠ [])
  ∧ (ss.topLevelUnresolvedGotos = [] → scopeStackDtor ss = ⟨[], false⟩) := by
  rcases hg : ss.topLevelUnresolvedGotos with _ | ⟨g, rest⟩
  · refine ⟨?_, ?_, ?_⟩ <;> simp [scopeStackDtor, hg]
  · refine ⟨?_, ?_, ?_⟩ <;> simp [scopeStackDtor, hg]

theorem scopeStackDtor_diagnostics_witness :
    wStack1.topLevelUnresolvedGotos = []
    ∧ scopeStackDtor wStack1 = ⟨[], false⟩ :=
  ⟨rfl, (scopeStackDtor_diagnostics wStack1).2.2 rfl⟩

/-! ## Claim C9 -/

theorem findFromBack_none_iff (stmt : Nat) :
    ∀ ts : List JumpTarget,
      findFromBack ts stmt = none ↔ ∀ t ∈ ts, t.targetStatement ≠ stmt := by
  intro ts
  induction ts with
  | nil => simp [findFromBack]
  | cons t rest ih =>
      rw [findFromBack]
      rcases h : findFromBack rest stmt with _ | r
      · by_cases hb : t.targetStatement = stmt
        · simp [hb]
        · simp only [if_neg hb]
          simp only [List.mem_cons]
          constructor
          · intro _ t' ht'
            rcases ht' with he | hm
            · subst he; exact hb
            · exact (ih.mp h) t' hm
          · intro _; trivial
      · simp only
        constructor
        · intro hc; cases hc
        · intro hall
          have hr : r ∈ rest ∧ r.targetStatement = stmt := by
            clear ih hall
            induction rest generalizing r with
            | nil => cases h
            | cons x xs ihx =>
                rw [findFromBack] at h
                rcases hf : findFromBack xs stmt with _ | r'
                · rw [hf] at h
                  simp only at h
                  by_cases hx : x.targetStatement = stmt
                  · rw [if_pos hx] at h
                    obtain rfl := Option.some.inj h
                    exact ⟨List.mem_cons_self _ _, hx⟩
                  · rw [if_neg hx] at h
                    cases h
                · rw [hf] at h
                  simp only at h
                  obtain rfl := Option.some.inj h
                  rcases ihx _ hf with ⟨hm, hs⟩
                  exact ⟨List.mem_cons_of_mem _ hm, hs⟩
          exact absurd hr.2 (hall r (List.mem_cons_of_mem _ hr.1))

theorem findFromBack_append_some (stmt : Nat) (r : JumpTarget) :
    ∀ (pre suf : List JumpTarget), findFromBack suf stmt = some r →
      findFromBack (pre ++ suf) stmt = some r := by
  intro pre
  induction pre with
  | nil => intro suf h; exact h
  | cons x xs ih =>
      intro suf h
      show (match findFromBack (xs ++ suf) stmt with
        | some q => some q
        | none => if x.targetStatement = stmt then some x else none) = some r
      rw [ih suf h]

theorem findFromBack_cons_of_rest_none (stmt : Nat) (t0 : JumpTarget)
    (suf : List JumpTarget) (h : findFromBack suf stmt = none)
    (hm : t0.targetStatement = stmt) :
    findFromBack (t0 :: suf) stmt = some t0 := by
  rw [findFromBack, h]
  simp [hm]

/-- C9: `jumpToStatement` searches the given jump-target stack from
innermost (most recently pushed) outward for the statement identity and
runs cleanups to the match's recorded cursor and block; when no entry
matches it fails with an internal-consistency assertion (modelled as
`none`).  `jumpToClosest` unconditionally takes the topmost entry, and
asserts when the stack is empty. -/
theorem jumpToStatement_search (ss : ScopeStack) (ts : List JumpTarget) (stmt : Nat) :
    (jumpToStatement ss ts stmt = none ↔ ∀ t ∈ ts, t.targetStatement ≠ stmt)
  ∧ (∀ pre t0 suf, ts = pre ++ t0 :: suf → t0.targetStatement = stmt →
      (∀ t ∈ suf, t.targetStatement ≠ stmt) →
      jumpToStatement ss ts stmt
        = some (runCleanups ss t0.cleanupScope t0.targetBlock))
  ∧ (jumpToClosest ss ts = none ↔ ts = [])
  ∧ (∀ pre t0, ts = pre ++ [t0] →
      jumpToClosest ss ts = some (runCleanups ss t0.cleanupScope t0.targetBlock)) := by
  refine ⟨?_, ?_, ?_, ?_⟩
  · rw [jumpToStatement]
    rcases h : findFromBack ts stmt with _ | r
    · simp only
      rw [← findFromBack_none_iff stmt ts, h]
      simp
    · simp only
      rw [← findFromBack_none_iff stmt ts, h]
      simp
  · intro pre t0 suf hts hm hsuf
    have hsufn : findFromBack suf stmt = none := (findFromBack_none_iff stmt suf).mpr hsuf
    have hfind : findFromBack ts stmt = some t0 := by
      rw [hts]
      exact findFromBack_append_some stmt t0 pre (t0 :: suf)
        (findFromBack_cons_of_rest_none stmt t0 suf hsufn hm)
    rw [jumpToStatement, hfind]
  · rcases List.eq_nil_or_concat ts with he | ⟨pre, t0, he⟩
    · subst he
      simp [jumpToClosest]
    · rw [List.concat_eq_append] at he
      subst he
      rw [jumpToClosest, List.getLast?_concat]
      simp
  · intro pre t0 hts
    rw [jumpToClosest, hts, List.getLast?_concat]

theorem jumpToStatement_search_witness :
    ([⟨8, 0, 5⟩] : List JumpTarget) = [] ++ (⟨8, 0, 5⟩ : JumpTarget) :: []
    ∧ (⟨8, 0, 5⟩ : JumpTarget).targetStatement = 5
    ∧ jumpToStatement wStack1 [⟨8, 0, 5⟩] 5 = some (runCleanups wStack1 0 8) :=
  ⟨rfl, rfl, (jumpToStatement_search wStack1 [⟨8, 0, 5⟩] 5).2.1 [] ⟨8, 0, 5⟩ []
    rfl rfl (by intro t ht; cases ht)⟩

/-! ## Claim C10 -/

/-- C10: loop break targets and switch break targets share one stack:
`pushLoopTarget` pushes one entry onto the continue stack and one onto the
break stack (same cursor and statement identity), `pushBreakTarget` pushes
only onto the same break stack, `popLoopTarget` removes exactly one entry
from each of the two stacks, and an unlabeled break (`jumpToClosest` on the
break stack) always unwinds to the most recently pushed break target of
either kind. -/
theorem break_stack_shared (ss : ScopeStack) (stmt : Nat) (ct bt : BlockId) :
    (pushLoopTarget ss stmt ct bt).continueTargets
        = ss.continueTargets ++ [⟨ct, currentCleanupScope ss, stmt⟩]
  ∧ (pushLoopTarget ss stmt ct bt).breakTargets
        = ss.breakTargets ++ [⟨bt, currentCleanupScope ss, stmt⟩]
  ∧ (pushBreakTarget ss stmt bt).breakTargets
        = ss.breakTargets ++ [⟨bt, currentCleanupScope ss, stmt⟩]
  ∧ (pushBreakTarget ss stmt bt).continueTargets = ss.continueTargets
  ∧ (popLoopTarget ss).continueTargets = ss.continueTargets.dropLast
  ∧ (popLoopTarget ss).breakTargets = ss.breakTargets.dropLast
  ∧ jumpToClosest (pushLoopTarget ss stmt ct bt) (pushLoopTarget ss stmt ct bt).breakTargets
      = some (runCleanups (pushLoopTarget ss stmt ct bt) (currentCleanupScope ss) bt)
  ∧ jumpToClosest (pushBreakTarget ss stmt bt) (pushBreakTarget ss stmt bt).breakTargets
      = some (runCleanups (pushBreakTarget ss stmt bt) (currentCleanupScope ss) bt)
  ∧ (∀ rest t, ss.breakTargets = rest ++ [t] →
      jumpToClosest ss ss.breakTargets
        = some (runCleanups ss t.cleanupScope t.targetBlock)) := by
  refine ⟨rfl, rfl, rfl, rfl, rfl, rfl, ?_, ?_, ?_⟩
  · rw [show (pushLoopTarget ss stmt ct bt).breakTargets
        = ss.breakTargets ++ [⟨bt, currentCleanupScope ss, stmt⟩] from rfl]
    rw [jumpToClosest, List.getLast?_concat]
  · rw [show (pushBreakTarget ss stmt bt).breakTargets
        = ss.breakTargets ++ [⟨bt, currentCleanupScope ss, stmt⟩] from rfl]
    rw [jumpToClosest, List.getLast?_concat]
  · intro rest t hts
    rw [jumpToClosest, hts, List.getLast?_concat]

theorem break_stack_shared_witness :
    wStack1.breakTargets ++ [(⟨21, 1, 5⟩ : JumpTarget)] = [⟨21, 1, 5⟩]
    ∧ jumpToClosest (pushLoopTarget wStack1 5 20 21)
          (pushLoopTarget wStack1 5 20 21).breakTargets
        = some (runCleanups (pushLoopTarget wStack1 5 20 21) 1 21) :=
  ⟨rfl, (break_stack_shared wStack1 5 20 21).2.2.2.2.2.2.1⟩

/-! ## Claim C8 -/

/-- One call into the `ScopeStack` interface.  The assertion-style
operations (`jumpToStatement`, `jumpToClosest`) use their success case and
leave the state unchanged on assertion failure, where the source would have
aborted. -/
inductive Op where
  | pushCleanup (beginBlock endBlock : BlockId)
  | runCleanups (targetScope : Nat) (cw : BlockId)
  | runAllCleanups (cw : BlockId)
  | popCleanups (targetScope : Nat)
  | pushLoopTarget (stmt : Nat) (ct bt : BlockId)
  | popLoopTarget
  | pushBreakTarget (stmt : Nat) (bt : BlockId)
  | popBreakTarget
  | addLabelTarget (l : Nat) (b : BlockId)
  | jumpToLabel (loc l : Nat)
  | jumpToStatementBreak (stmt : Nat)
  | jumpToStatementContinue (stmt : Nat)
  | jumpToClosestBreak
  | jumpToClosestContinue
deriving DecidableEq

def applyOp (ss : ScopeStack) : Op → ScopeStack
  | Op.pushCleanup b e => pushCleanup ss b e
  | Op.runCleanups k cw => runCleanups ss k cw
  | Op.runAllCleanups cw => runAllCleanups ss cw
  | Op.popCleanups k => popCleanups ss k
  | Op.pushLoopTarget st ct bt => pushLoopTarget ss st ct bt
  | Op.popLoopTarget => popLoopTarget ss
  | Op.pushBreakTarget st bt => pushBreakTarget ss st bt
  | Op.popBreakTarget => popBreakTarget ss
  | Op.addLabelTarget l b => addLabelTarget ss l b
  | Op.jumpToLabel loc l => jumpToLabel ss loc l
  | Op.jumpToStatementBreak st => (jumpToStatement ss ss.breakTargets st).getD ss
  | Op.jumpToStatementContinue st => (jumpToStatement ss ss.continueTargets st).getD ss
  | Op.jumpToClosestBreak => (jumpToClosest ss ss.breakTargets).getD ss
  | Op.jumpToClosestContinue => (jumpToClosest ss ss.continueTargets).getD ss

def applyOps (ss : ScopeStack) (ops : List Op) : ScopeStack :=
  ops.foldl applyOp ss

theorem runCleanups_labelTargets (ss : ScopeStack) (k : Nat) (cw : BlockId) :
    (runCleanups ss k cw).labelTargets = ss.labelTargets := by
  rw [runCleanups]
  by_cases h : k = currentCleanupScope ss
  · rw [if_pos h]
  · rw [if_neg h]

theorem popCleanups_labelTargets (ss : ScopeStack) (k : Nat) :
    (popCleanups ss k).labelTargets = ss.labelTargets :=
  (popCleanupsLoop_char (currentCleanupScope ss - k) ss
    (by simp only [currentCleanupScope]; omega)).2.2.2.2

theorem jumpToLabel_labelTargets (ss : ScopeStack) (loc l : Nat) :
    (jumpToLabel ss loc l).labelTargets = ss.labelTargets := by
  rcases hf : findLabel ss.labelTargets l with _ | t
  · rw [jumpToLabel_not_found ss loc l hf, setCurrent_labelTargets]
  · rw [jumpToLabel_found ss loc l t hf, runCleanups_labelTargets]

theorem jumpToStatement_getD_labelTargets (ss : ScopeStack) (ts : List JumpTarget)
    (st : Nat) :
    ((jumpToStatement ss ts st).getD ss).labelTargets = ss.labelTargets := by
  rw [jumpToStatement]
  rcases hf : findFromBack ts st with _ | t
  · rfl
  · show (runCleanups ss t.cleanupScope t.targetBlock).labelTargets = ss.labelTargets
    exact runCleanups_labelTargets ss _ _

theorem jumpToClosest_getD_labelTargets (ss : ScopeStack) (ts : List JumpTarget) :
    ((jumpToClosest ss ts).getD ss).labelTargets = ss.labelTargets := by
  rw [jumpToClosest]
  rcases hf : ts.getLast? with _ | t
  · rfl
  · show (runCleanups ss t.cleanupScope t.targetBlock).labelTargets = ss.labelTargets
    exact runCleanups_labelTargets ss _ _

theorem applyOp_findLabel (ss : ScopeStack) (op : Op) (l : Nat)
    (h : ∀ b', op ≠ Op.addLabelTarget l b') :
    findLabel (applyOp ss op).labelTargets l = findLabel ss.labelTargets l := by
  cases op with
  | pushCleanup b e => rfl
  | runCleanups k cw =>
      exact congrArg (fun m => findLabel m l) (runCleanups_labelTargets ss k cw)
  | runAllCleanups cw =>
      exact congrArg (fun m => findLabel m l) (runCleanups_labelTargets ss 0 cw)
  | popCleanups k =>
      exact congrArg (fun m => findLabel m l) (popCleanups_labelTargets ss k)
  | pushLoopTarget st ct bt => rfl
  | popLoopTarget => rfl
  | pushBreakTarget st bt => rfl
  | popBreakTarget => rfl
  | addLabelTarget l' b =>
      have hne : l' ≠ l := by
        intro he
        subst he
        exact h b rfl
      show findLabel (addLabelTarget ss l' b).labelTargets l = _
      rw [addLabelTarget_unfold, setCurrent_labelTargets]
      exact findLabel_setLabel_ne _ l' l _ hne
  | jumpToLabel loc l' =>
      exact congrArg (fun m => findLabel m l) (jumpToLabel_labelTargets ss loc l')
  | jumpToStatementBreak st =>
      exact congrArg (fun m => findLabel m l)
        (jumpToStatement_getD_labelTargets ss ss.breakTargets st)
  | jumpToStatementContinue st =>
      exact congrArg (fun m => findLabel m l)
        (jumpToStatement_getD_labelTargets ss ss.continueTargets st)
  | jumpToClosestBreak =>
      exact congrArg (fun m => findLabel m l)
        (jumpToClosest_getD_labelTargets ss ss.breakTargets)
  | jumpToClosestContinue =>
      exact congrArg (fun m => findLabel m l)
        (jumpToClosest_getD_labelTargets ss ss.continueTargets)

theorem applyOps_findLabel (l : Nat) (v : Option JumpTarget) :
    ∀ (ops : List Op) (ss : ScopeStack),
      (∀ b', Op.addLabelTarget l b' ∉ ops) →
      findLabel ss.labelTargets l = v →
      findLabel (applyOps ss ops).labelTargets l = v := by
  intro ops
  induction ops with
  | nil => intro ss _ h; exact h
  | cons op rest ih =>
      intro ss hops hv
      show findLabel (applyOps (applyOp ss op) rest).labelTargets l = v
      apply ih
      · intro b' hb'
        exact hops b' (List.mem_cons_of_mem _ hb')
      · rw [applyOp_findLabel ss op l (fun b' he => hops b' (he ▸ List.mem_cons_self _ _))]
        exact hv

/-- C8: label-table entries are permanent: once `addLabelTarget` has bound a
label to (block, cursor), no subsequent sequence of ScopeStack operations
that does not re-add the same label ever changes the recorded pair, and
every later `jumpToLabel` to that label unwinds to exactly the originally
recorded block and cursor. -/
theorem labelTable_permanent (ss : ScopeStack) (l : Nat) (b : BlockId) (ops : List Op)
    (h : ∀ b', Op.addLabelTarget l b' ∉ ops) :
    findLabel (applyOps (addLabelTarget ss l b) ops).labelTargets l
        = some ⟨b, currentCleanupScope ss, 0⟩
  ∧ ∀ loc, jumpToLabel (applyOps (addLabelTarget ss l b) ops) loc l
        = runCleanups (applyOps (addLabelTarget ss l b) ops)
            (currentCleanupScope ss) b := by
  have h0 : findLabel (addLabelTarget ss l b).labelTargets l
      = some ⟨b, currentCleanupScope ss, 0⟩ := by
    rw [addLabelTarget_unfold, setCurrent_labelTargets]
    exact findLabel_setLabel_self _ l _
  have h1 := applyOps_findLabel l (some ⟨b, currentCleanupScope ss, 0⟩) ops
    (addLabelTarget ss l b) h h0
  refine ⟨h1, ?_⟩
  intro loc
  exact jumpToLabel_found _ loc l ⟨b, currentCleanupScope ss, 0⟩ h1

theorem labelTable_permanent_witness :
    (∀ b', Op.addLabelTarget 4 b' ∉ ([Op.pushCleanup 12 13, Op.popCleanups 0,
        Op.addLabelTarget 6 14] : List Op))
    ∧ findLabel (applyOps (addLabelTarget wStack1 4 9)
          [Op.pushCleanup 12 13, Op.popCleanups 0, Op.addLabelTarget 6 14]).labelTargets 4
        = some ⟨9, 1, 0⟩ := by
  have hops : ∀ b', Op.addLabelTarget 4 b' ∉ ([Op.pushCleanup 12 13, Op.popCleanups 0,
      Op.addLabelTarget 6 14] : List Op) := by
    intro b'
    simp
  exact ⟨hops, (labelTable_permanent wStack1 4 9
    [Op.pushCleanup 12 13, Op.popCleanups 0, Op.addLabelTarget 6 14] hops).1⟩

end IrFunction
